import Mathlib

/-!
Verification of the resublox content-selection engine.

This file gives a shallow embedding, in Lean 4, of the parts of the
resublox repository that the specification talks about:

* `src/src/core.py` — page geometry constants, `SizeInfo`, `FontMetrics`
  (`getWidth`, `getHeight`), the `ItemType` enum and `SpaceInformation`;
* `src/src/ranker.py` — the `knapsack` solver, the `iterate` helper with its
  uniform-weight greedy fast path, the convergent point-selection loop of
  `prunePoints`, the `filter` function, `makeBatch` and `rank`;
* `src/resublox.py` — the five-variable unpacking of `rank`'s result.

Modelling conventions:

* Python `float` values (similarity scores, the float32 DP table) are
  modelled as exact rationals `ℚ`; Python `int` as `ℤ` or `ℕ`.
* Python `int(x)` on a nonnegative quantity is `Int.floor`;
  `math.ceil` is `Int.ceil`.
* Fallible Python code (AttributeError, IndexError, ValueError,
  ZeroDivisionError, `exit()`) is modelled with `Except PyErr`.
* Content-derived heights (`calculateJobOverhead`, `generateSectionHeader`,
  …) are abstracted as an environment of functions of the same indices,
  since they depend only on the input document's strings.
-/

/-- The Python failure modes that the modelled code can raise. -/
inductive PyErr where
  | attributeError
  | indexError
  | valueError
  | zeroDivision
  | systemExit
deriving DecidableEq, Repr

deriving instance DecidableEq for Except

/-! ## core.py: configuration constants -/

/-- SCALE_FACTOR = 1000 (core.py). -/
def SCALE_FACTOR : ℤ := 1000

/-- PAGE_WIDTH = int(8.5 * SCALE_FACTOR) (core.py). -/
def PAGE_WIDTH : ℤ := 8500

/-- PAGE_HEIGHT = int(11 * SCALE_FACTOR) (core.py). -/
def PAGE_HEIGHT : ℤ := 11000

/-- MARGIN = [1000, 1000, 1000, 1000] (core.py); all four margins are equal,
so we keep a single constant. -/
def MARGIN : ℤ := 1000

/-- LINE_HEIGHT = 1.15 (core.py).  The Python double closest to 1.15 differs
from 23/20 by less than 2⁻⁵², which does not move any of the `int(...)`
truncations computed below, so the constant is modelled exactly. -/
def LINE_HEIGHT : ℚ := 23 / 20

/-- MAX_PAGES = 1 (core.py). -/
def MAX_PAGES : ℤ := 1

/-- FONT = Fonts.ARIAL: unitsPerEm (core.py). -/
def fontUnitsPerEm : ℚ := 2048

/-- FONT = Fonts.ARIAL: fontHeightUnits (core.py). -/
def fontHeightUnits : ℚ := 2355

/-- FONT = Fonts.ARIAL: fontAvgWidthUnits (core.py). -/
def fontAvgWidthUnits : ℕ := 1079

/-- A point size together with its derived scaled line height
(`SizeInfo` in core.py; the derived `height` field). -/
structure SizeInfo where
  size : ℚ
  height : ℤ
deriving DecidableEq, Repr

/-- SizeInfo.__post_init__ (core.py lines 80-83):
`heightPt = (FONT.fontHeightUnits * size * LINE_HEIGHT) / FONT.unitsPerEm`,
`heightInch = heightPt / 72`, `height = int(heightInch * SCALE_FACTOR)`. -/
def mkSizeInfo (s : ℚ) : SizeInfo :=
  ⟨s, ⌊(fontHeightUnits * s * LINE_HEIGHT / fontUnitsPerEm) / 72 * SCALE_FACTOR⌋⟩

/-- FontSize.NAME = SizeInfo(13) (core.py). -/
def FontSizeNAME : SizeInfo := mkSizeInfo 13

/-- FontSize.REGULAR = SizeInfo(10) (core.py). -/
def FontSizeREGULAR : SizeInfo := mkSizeInfo 10

/-- FontSize.TITLE = SizeInfo(12) (core.py). -/
def FontSizeTITLE : SizeInfo := mkSizeInfo 12

/-- FontSize.SUBTITLE = SizeInfo(11) (core.py). -/
def FontSizeSUBTITLE : SizeInfo := mkSizeInfo 11

/-- Spacing.GAP = SizeInfo(6) (core.py). -/
def SpacingGAP : SizeInfo := mkSizeInfo 6

/-- Spacing.GAP_SMALL = SizeInfo(3) (core.py). -/
def SpacingGAPSMALL : SizeInfo := mkSizeInfo 3

/-! ## core.py: FontMetrics -/

/-- FontMetrics.maxWidth = PAGE_WIDTH - MARGIN[1] - MARGIN[3] (core.py). -/
def fmMaxWidth : ℤ := PAGE_WIDTH - MARGIN - MARGIN

/-- The cmap/hmtx tables of the loaded font, abstracted: the advance width of
a character when the font maps it, `none` otherwise (font widths are
unsigned integers). -/
def CharWidths : Type := Char → Option ℕ

/-- Python `str.isspace`-style whitespace characters that `str.strip`
removes. -/
def pyIsSpace (c : Char) : Bool :=
  c == ' ' || c == '\t' || c == '\n' || c == '\r' || c == Char.ofNat 11 || c == Char.ofNat 12

/-- FontMetrics.getWidth (core.py lines 111-128): sums per-character advance
widths with `FONT.fontAvgWidthUnits` as fallback, converts to points, then
inches, then truncates after scaling. -/
def getWidth (cw : CharWidths) (text : List Char) (size : SizeInfo) : ℤ :=
  let totalWidth : ℕ := (text.map (fun c => (cw c).getD fontAvgWidthUnits)).sum
  ⌊((totalWidth : ℚ) * size.size / fontUnitsPerEm) / 72 * SCALE_FACTOR⌋

/-- FontMetrics.getHeight (core.py lines 130-140): for text whose `strip()`
is empty it returns `int((size.size / 72) * SCALE_FACTOR)`; otherwise
`size.height * ceil(width / maxWidth)`. -/
def getHeight (cw : CharWidths) (text : List Char) (size : SizeInfo) : ℤ :=
  if text.all pyIsSpace then
    ⌊size.size / 72 * SCALE_FACTOR⌋
  else
    size.height * ⌈(getWidth cw text size : ℚ) / (fmMaxWidth : ℚ)⌉

/-! ## core.py: ItemType and SpaceInformation -/

/-- The `ItemType` enum exactly as defined in core.py lines 142-147.  It has
no `PROJECT_POINT` member. -/
inductive ItemType where
  | SKILL
  | POINT
  | KEYWORD
  | COURSE
  | JOB_POSTING
deriving DecidableEq, Repr

/-- Python attribute lookup on the `ItemType` enum class: the member of the
given name, or `none` (which Python reports as an AttributeError). -/
def itemTypeMember (name : String) : Option ItemType :=
  if name = "SKILL" then some .SKILL
  else if name = "POINT" then some .POINT
  else if name = "KEYWORD" then some .KEYWORD
  else if name = "COURSE" then some .COURSE
  else if name = "JOB_POSTING" then some .JOB_POSTING
  else none

/-- Evaluating `ItemType.<name>` raises AttributeError when the member does
not exist. -/
def itemTypeAttr (name : String) : Except PyErr ItemType :=
  match itemTypeMember name with
  | some t => .ok t
  | none => .error .attributeError

/-- SpaceInformation.minPointsPerSection = MIN_POINTS_PER_SECTION = 3
(core.py). -/
def minPointsPerSection : ℕ := 3

/-- SpaceInformation.maxHeight = (PAGE_HEIGHT - MARGIN[0] - MARGIN[2]) *
MAX_PAGES (core.py line 177); numerically 9000. -/
def spaceMaxHeight : ℤ := (PAGE_HEIGHT - MARGIN - MARGIN) * MAX_PAGES

/-- SpaceInformation.skillReserve = SKILLS_LINE_COUNT * FontSize.REGULAR.height
(core.py line 174). -/
def skillReserve : ℤ := 2 * FontSizeREGULAR.height

/-- SpaceInformation.courseReserve = COURSES_LINE_COUNT *
FontSize.REGULAR.height (core.py line 176). -/
def courseReserve : ℤ := 1 * FontSizeREGULAR.height

/-- BLACKLIST_WEIGHT = SPACE_INFO.maxHeight + 1 (ranker.py line 255),
as the natural number written into the weights array. -/
def BLACKLIST_WEIGHT : ℕ := 9001

/-! ## Document model

The validated YAML document, restricted to the fields the ranker reads:
skills list, jobs with sections (points, keywords, links), education courses,
and an optional projects block.  String payloads stand for the text fields. -/

/-- One section of a job (ranker.py reads `title`, `points`, `keywords`,
`links`). -/
structure MSection where
  title : String
  points : List String
  keywords : List String
  links : List String
deriving DecidableEq, Inhabited, Repr

/-- One job (`role`, `company`, `location`, `from`/`to`, `sections`).  The
`from`/`to` date strings are normalized into `fromDate`/`toDate` (filter
reads them through `.get('from', .get('from_date', ''))`). -/
structure MJob where
  role : String
  company : String
  location : String
  fromDate : String
  toDate : String
  sections : List MSection
deriving DecidableEq, Inhabited, Repr

/-- One project (`title`, `points`, `keywords`, `links`). -/
structure MProject where
  title : String
  points : List String
  keywords : List String
  links : List String
deriving DecidableEq, Inhabited, Repr

/-- The validated document.  `projects = none` models a document whose
`projects` key is absent or `None`. -/
structure MDoc where
  contact : String
  skillsTitle : String
  skills : List String
  experienceTitle : String
  jobs : List MJob
  educationBlock : String
  courses : List String
  projectsTitle : String
  projects : Option (List MProject)
deriving DecidableEq, Inhabited, Repr

/-! ## makeBatch and prunePoints as written (ranker.py)

`makeBatch` (ranker.py lines 37-161) walks skills, then per job/section the
points and keywords, then courses, then — when a projects block is present —
each project's points (evaluating the missing `ItemType.PROJECT_POINT`,
line 128) and keywords, and finally appends the job-posting item.  Only the
item-type tags matter for the claims below, so items are modelled by their
tags in catalog order. -/

/-- Item-type tags produced by makeBatch, in catalog order; an AttributeError
is raised at the first project point encountered, because
`ItemType.PROJECT_POINT` does not exist (core.py lines 142-147). -/
def makeBatchTags (doc : MDoc) : Except PyErr (List ItemType) :=
  let skillTags := doc.skills.map fun _ => ItemType.SKILL
  let expTags := (doc.jobs.map fun j =>
    (j.sections.map fun s =>
      s.points.map (fun _ => ItemType.POINT) ++
        s.keywords.map (fun _ => ItemType.KEYWORD)).flatten).flatten
  let courseTags := doc.courses.map fun _ => ItemType.COURSE
  match doc.projects with
  | none => .ok (skillTags ++ expTags ++ courseTags ++ [ItemType.JOB_POSTING])
  | some ps =>
    if ps.any (fun p => !p.points.isEmpty) then
      .error .attributeError
    else
      .ok (skillTags ++ expTags ++ courseTags ++
        (ps.map fun p => p.keywords.map fun _ => ItemType.KEYWORD).flatten ++
        [ItemType.JOB_POSTING])

/-- A Python list comprehension `[item for item in items if item.itemType ==
ItemType.<name>]`: the attribute is evaluated once per element, so a missing
member raises AttributeError exactly when the list is non-empty. -/
def pyFilterByAttr (items : List ItemType) (name : String) :
    Except PyErr (List ItemType) :=
  match items with
  | [] => .ok []
  | _ =>
    match itemTypeAttr name with
    | .ok t => .ok (items.filter (· == t))
    | .error e => .error e

/-- prunePoints as written (ranker.py lines 253-443).  The partition phase
(lines 273-274) evaluates `ItemType.POINT` and then `ItemType.PROJECT_POINT`
per element; the latter raises for any non-empty catalog, before the
convergence loop and before any knapsack call.  The remaining paths: with an
empty catalog both partitions are empty, the ratio
`SPACE_INFO.projectToExperienceRatio` (line 287) is never read (its loop has
no iterations), and the first `iterate` call either returns the empty
selection (capacity ≤ 0) or raises IndexError at `_targetWeights[0]`
(line 262, the generator over an empty list makes `all` true). -/
def prunePointsReal (items : List ItemType) (capacity : ℤ) :
    Except PyErr (List ℕ × List ℕ × ℤ) := do
  let _expPoints ← pyFilterByAttr items "POINT"
  let projPoints ← pyFilterByAttr items "PROJECT_POINT"
  if projPoints.isEmpty then
    if capacity ≤ 0 then .ok ([], [], 0) else .error .indexError
  else
    .error .attributeError

/-- rank (ranker.py lines 711-743): reserves the skills/courses space, exits
when nothing remains, builds the catalog and similarity scores, and calls
prunePoints.  The stages after prunePoints are unreachable — prunePoints
raises on every non-empty catalog and the catalog always ends with the
job-posting item — so the model stops there.  `requiredRemaining` stands for
`getRequiredLineWeights(content)`, a content-derived constant. -/
def rankReal (requiredRemaining : ℤ) (doc : MDoc) :
    Except PyErr (List ℕ × List ℕ × ℤ) := do
  let heightRemaining := requiredRemaining - skillReserve - courseReserve
  if heightRemaining ≤ 0 then .error .systemExit
  else do
    let items ← makeBatchTags doc
    prunePointsReal items heightRemaining

/-! ## The knapsack solver (ranker.py lines 180-208)

The DP table is a `(n+1) × (capacity+1)` float32 array initialised to zero;
both fill loops start at index 1, so row 0 and column 0 keep their zeros.
Values are modelled as exact rationals.  Reconstruction walks rows backward,
selecting item `i-1` whenever `table[i][w] != table[i-1][w]` and decrementing
`w` by that item's weight. -/

/-- Entry `table[i][w]` of the filled DP table.  Out-of-range item accesses
use `getD` defaults; the loops only ever look at `i ≤ n`. -/
def ksTable (values : List ℚ) (weights : List ℕ) : ℕ → ℕ → ℚ
  | 0, _ => 0
  | _ + 1, 0 => 0
  | i + 1, w + 1 =>
    if weights.getD i 0 ≤ w + 1 then
      max (values.getD i 0 + ksTable values weights i (w + 1 - weights.getD i 0))
        (ksTable values weights i (w + 1))
    else
      ksTable values weights i (w + 1)

/-- The backward reconstruction (ranker.py lines 201-206), producing the
selection flags for items `0 … i-1` given the remaining capacity `w`.
Whenever the selecting branch is taken the item's weight is at most `w`
(proved below), so the truncated subtraction agrees with Python. -/
def ksSelect (values : List ℚ) (weights : List ℕ) : ℕ → ℕ → List Bool
  | 0, _ => []
  | i + 1, w =>
    if ksTable values weights (i + 1) w ≠ ksTable values weights i w then
      ksSelect values weights i (w - weights.getD i 0) ++ [true]
    else
      ksSelect values weights i w ++ [false]

/-- knapsack (ranker.py lines 180-208).  A length mismatch prints and calls
`exit()`.  A capacity of `-1` makes `np.zeros` build a `(n+1) × 0` table and
the reconstruction loop then raises IndexError at `table[i][-1]` unless
`n = 0`; any capacity below `-1` makes `np.zeros` itself raise ValueError
(negative dimension). -/
def knapsack (values : List ℚ) (weights : List ℕ) (capacity : ℤ) :
    Except PyErr (List Bool) :=
  if values.length ≠ weights.length then .error .systemExit
  else if capacity < -1 then .error .valueError
  else if capacity = -1 ∧ values.length ≠ 0 then .error .indexError
  else .ok (ksSelect values weights values.length capacity.toNat)

/-- The set of indices a selection flags as chosen. -/
def selIdx (sel : List Bool) : Finset ℕ :=
  (Finset.range sel.length).filter (fun i => sel.getD i false)

/-- Total value of a selection. -/
def selValue (values : List ℚ) (sel : List Bool) : ℚ :=
  ∑ i ∈ selIdx sel, values.getD i 0

/-- Total weight of a selection. -/
def selWeight (weights : List ℕ) (sel : List Bool) : ℕ :=
  ∑ i ∈ selIdx sel, weights.getD i 0

/-! ## The iterate helper (ranker.py lines 257-270)

`iterate` guards `capacity <= 0`, then tests `all(tw == _targetWeights[0]
for tw in _targetWeights)`.  The generator never evaluates
`_targetWeights[0]` on an empty list, so `all` is true and the subsequent
`maxItems = _capacity // _targetWeights[0]` raises IndexError; a uniform
zero weight raises ZeroDivisionError.  Otherwise the greedy path sorts the
indices by value descending — Python's sort is stable, and with
`reverse=True` equal keys keep their original ascending order, so the result
is the unique permutation sorted by the total order «larger value first,
ties by smaller index first» — and selects the first `maxItems` of them. -/

/-- The comparison realised by `sorted(range(n), key=lambda i: values[i],
reverse=True)`: larger value first, ties broken by original index. -/
def greedyRank (values : List ℚ) (i j : ℕ) : Prop :=
  values.getD j 0 < values.getD i 0 ∨ (values.getD i 0 = values.getD j 0 ∧ i ≤ j)

instance greedyRankDecidable (values : List ℚ) : DecidableRel (greedyRank values) :=
  fun _ _ => inferInstanceAs (Decidable (_ ∨ _))

instance greedyRankTotal (values : List ℚ) : IsTotal ℕ (greedyRank values) where
  total i j := by
    rcases lt_trichotomy (values.getD i 0) (values.getD j 0) with h | h | h
    · exact .inr (.inl h)
    · rcases Nat.le_total i j with hij | hij
      · exact .inl (.inr ⟨h, hij⟩)
      · exact .inr (.inr ⟨h.symm, hij⟩)
    · exact .inl (.inl h)

instance greedyRankTrans (values : List ℚ) : IsTrans ℕ (greedyRank values) where
  trans i j k hij hjk := by
    rcases hij with h₁ | ⟨e₁, l₁⟩
    · rcases hjk with h₂ | ⟨e₂, _⟩
      · exact .inl (h₂.trans h₁)
      · exact .inl (e₂ ▸ h₁)
    · rcases hjk with h₂ | ⟨e₂, l₂⟩
      · exact .inl (e₁ ▸ h₂)
      · exact .inr ⟨e₁.trans e₂, l₁.trans l₂⟩

/-- The sorted index list of the greedy fast path. -/
def greedyOrder (values : List ℚ) : List ℕ :=
  List.insertionSort (greedyRank values) (List.range values.length)

/-- The greedy fast path's selection: flags the first
`capacity // weight` indices of the sorted order. -/
def greedyChosen (values : List ℚ) (maxItems : ℕ) : List Bool :=
  (List.range values.length).map
    (fun i => decide (i ∈ (greedyOrder values).take maxItems))

/-- iterate (ranker.py lines 257-270). -/
def iterate (capacity : ℤ) (tValues : List ℚ) (tWeights : List ℕ) :
    Except PyErr (List Bool) :=
  if capacity ≤ 0 then .ok (List.replicate tValues.length false)
  else if tWeights.all (fun w => w = tWeights.headD 0) then
    if tWeights.isEmpty then .error .indexError
    else if tWeights.headD 0 = 0 then .error .zeroDivision
    else .ok (greedyChosen tValues (capacity.toNat / tWeights.headD 0))
  else knapsack tValues tWeights capacity

/-! ## The convergent point-selection loop (ranker.py lines 253-443)

Modelled from the spec: `ItemType.PROJECT_POINT` and
`SPACE_INFO.projectToExperienceRatio` are absent from core.py (the spec's
Catalog Item types and configuration surface declare them), so — as the
claim about the partition phase records — the selector as written raises
before its loop ever runs.  The loop itself is fully present in the source
(lines 290-443) and is modelled here over its entry data: the combined
experience/project point list (each point carrying its value, with project
points already scaled by the weighting ratio, its line height, and its
parent key) together with the content-derived overhead estimators, which
are abstracted as functions of the same indices the code passes to them. -/

/-- One entry of `allPoints`: value (`allValues[i]`), original line height
(`allWeights[i]` before any blacklisting), and the parent key — a
`(jobIndex, sectionIndex)` pair for experience points, a `projectIndex` for
project points. -/
structure PPoint where
  value : ℚ
  lineHeight : ℕ
  group : (ℕ × ℕ) ⊕ ℕ
deriving DecidableEq, Inhabited, Repr

/-- The content-derived overhead estimators used by the loop:
`calculateJobOverhead`, `calculateSectionOverhead` (with its
`isFirstInJob` flag), `estimateKeywordsHeight`, `estimateLinksHeight`, and
the project counterparts; `hasProjects` is the guard
`'projects' in content and content['projects'] is not None`. -/
structure OverheadEnv where
  jobOH : ℕ → ℤ
  secOH : ℕ → ℕ → Bool → ℤ
  kwOH : ℕ → ℕ → ℤ
  linkOH : ℕ → ℕ → ℤ
  projOH : ℕ → ℤ
  projKwOH : ℕ → ℤ
  projLinkOH : ℕ → ℤ
  hasProjects : Bool

/-- The loop's mutable data: the (possibly blacklisted) weights array, the
current selection, the accounted active sets, and the working capacity.
`collapsed` is a ghost flag recording whether the last executed iteration
took the capacity-collapse branch, and `rejectedSecs`/`rejectedProjs` are
ghost accumulators of every group rejected by the minimum-points rule; none
of the ghost fields feeds back into the computation. -/
structure PPState where
  weights : List ℕ
  chosen : List Bool
  accJobs : Finset ℕ
  accSecs : Finset (ℕ × ℕ)
  accProjs : Finset ℕ
  capacity : ℤ
  collapsed : Bool
  rejectedSecs : Finset (ℕ × ℕ)
  rejectedProjs : Finset ℕ
deriving DecidableEq, Inhabited

/-- Indices of selected points belonging to section `k`
(`sectionPointIndices[k]`). -/
def secSelIdx (pts : List PPoint) (chosen : List Bool) (k : ℕ × ℕ) : Finset ℕ :=
  (Finset.range pts.length).filter
    (fun i => chosen.getD i false ∧ (pts.getD i default).group = Sum.inl k)

/-- Indices of selected points belonging to project `p`
(`projectPointIndices[p]`). -/
def projSelIdx (pts : List PPoint) (chosen : List Bool) (p : ℕ) : Finset ℕ :=
  (Finset.range pts.length).filter
    (fun i => chosen.getD i false ∧ (pts.getD i default).group = Sum.inr p)

/-- The section keys holding at least one selected point
(the keys of `sectionPointIndices`). -/
def activeSecs (pts : List PPoint) (chosen : List Bool) : Finset (ℕ × ℕ) :=
  ((List.range pts.length).filterMap fun i =>
    match (pts.getD i default).group with
    | Sum.inl k => if chosen.getD i false then some k else none
    | Sum.inr _ => none).toFinset

/-- The project keys holding at least one selected point. -/
def activeProjs (pts : List PPoint) (chosen : List Bool) : Finset ℕ :=
  ((List.range pts.length).filterMap fun i =>
    match (pts.getD i default).group with
    | Sum.inl _ => none
    | Sum.inr p => if chosen.getD i false then some p else none).toFinset

/-- Whether index `i` is a selected point of one of the groups being
rejected this iteration — exactly the indices the code unselects and
blacklists (ranker.py lines 332-344). -/
def idxRemoved (pts : List PPoint) (chosen : List Bool)
    (secsRm : Finset (ℕ × ℕ)) (projsRm : Finset ℕ) (i : ℕ) : Bool :=
  chosen.getD i false &&
    (match (pts.getD i default).group with
     | Sum.inl k => decide (k ∈ secsRm)
     | Sum.inr p => decide (p ∈ projsRm))

/-- `min(jobSections)` for job `j` over a set of section keys, as an
`Option` (Python's `min` on an empty list is guarded by the callers). -/
def minSec (secs : Finset (ℕ × ℕ)) (j : ℕ) : Option ℕ :=
  ((secs.filter fun q => q.1 = j).image Prod.snd).min

/-- The `isFirstInJob` flag computed for section `k` against section set
`secs`: `sectionIdx == min(jobSections)` when the job has sections in
`secs`, and `False` otherwise (ranker.py lines 366-367 and 384-385 both
reduce to this). -/
def isFirstFlag (secs : Finset (ℕ × ℕ)) (k : ℕ × ℕ) : Bool :=
  decide (minSec secs k.1 = some k.2)

/-- Overhead contributed by a set of newly active / newly inactive groups
(ranker.py lines 361-377 and 379-395): job headers, section headers with
keyword and link estimates, and — when the document has a projects block —
project headers with their estimates.  `flagSecs` is the section set the
`isFirstInJob` flag is computed against (`distinctSections` for additions,
`accountedSections` for removals). -/
def groupOverhead (env : OverheadEnv) (jobs : Finset ℕ) (secs : Finset (ℕ × ℕ))
    (flagSecs : Finset (ℕ × ℕ)) (projs : Finset ℕ) : ℤ :=
  (∑ j ∈ jobs, env.jobOH j) +
    (∑ k ∈ secs,
      (env.secOH k.1 k.2 (isFirstFlag flagSecs k) + env.kwOH k.1 k.2 + env.linkOH k.1 k.2)) +
    (if env.hasProjects then
      ∑ p ∈ projs, (env.projOH p + env.projKwOH p + env.projLinkOH p)
    else 0)

/-- The groups rejected this iteration: active sections with fewer selected
points than the minimum (ranker.py lines 321-324). -/
def rmSecs (pts : List PPoint) (raw : List Bool) : Finset (ℕ × ℕ) :=
  (activeSecs pts raw).filter
    (fun k => (secSelIdx pts raw k).card < minPointsPerSection)

/-- The projects rejected this iteration (ranker.py lines 327-330). -/
def rmProjs (pts : List PPoint) (raw : List Bool) : Finset ℕ :=
  (activeProjs pts raw).filter
    (fun p => (projSelIdx pts raw p).card < minPointsPerSection)

/-- The selection after the rejected groups' points are unselected
(ranker.py lines 332-344). -/
def newChosen (pts : List PPoint) (raw : List Bool) : List Bool :=
  (List.range pts.length).map
    (fun i => raw.getD i false && !idxRemoved pts raw (rmSecs pts raw) (rmProjs pts raw) i)

/-- The weights after the rejected groups' selected points are blacklisted
(ranker.py lines 332-344). -/
def newWeights (pts : List PPoint) (raw : List Bool) (wts : List ℕ) : List ℕ :=
  (List.range pts.length).map
    (fun i => if idxRemoved pts raw (rmSecs pts raw) (rmProjs pts raw) i
      then BLACKLIST_WEIGHT else wts.getD i 0)

/-- `distinctSections` after rejection (the surviving keys of
`sectionPointIndices`). -/
def dSecs (pts : List PPoint) (raw : List Bool) : Finset (ℕ × ℕ) :=
  activeSecs pts raw \ rmSecs pts raw

/-- `distinctJobs`: the jobs of the surviving sections. -/
def dJobs (pts : List PPoint) (raw : List Bool) : Finset ℕ :=
  (dSecs pts raw).image Prod.fst

/-- `distinctProjects` after rejection. -/
def dProjs (pts : List PPoint) (raw : List Bool) : Finset ℕ :=
  activeProjs pts raw \ rmProjs pts raw

/-- `netOverheadChange` (ranker.py lines 361-397). -/
def netChange (env : OverheadEnv) (pts : List PPoint) (s : PPState)
    (raw : List Bool) : ℤ :=
  groupOverhead env (dJobs pts raw \ s.accJobs) (dSecs pts raw \ s.accSecs)
      (dSecs pts raw) (dProjs pts raw \ s.accProjs) -
    groupOverhead env (s.accJobs \ dJobs pts raw) (s.accSecs \ dSecs pts raw)
      s.accSecs (s.accProjs \ dProjs pts raw)

/-- The state after the rejection bookkeeping, before the capacity update
(chosen/weights replaced, ghost accumulators extended, accounted sets kept). -/
def stepBase (pts : List PPoint) (s : PPState) (raw : List Bool) : PPState :=
  { s with chosen := newChosen pts raw,
           weights := newWeights pts raw s.weights,
           collapsed := false,
           rejectedSecs := s.rejectedSecs ∪ rmSecs pts raw,
           rejectedProjs := s.rejectedProjs ∪ rmProjs pts raw }

/-- `stepBase` with the accounted sets replaced by the distinct sets and the
capacity updated (the path through ranker.py line 410). -/
def stepCommit (env : OverheadEnv) (pts : List PPoint) (s : PPState)
    (raw : List Bool) : PPState :=
  { stepBase pts s raw with
      capacity := s.capacity - netChange env pts s raw,
      accJobs := dJobs pts raw,
      accSecs := dSecs pts raw,
      accProjs := dProjs pts raw }

/-- One iteration of the while-loop (ranker.py lines 299-415): solve, group,
reject undersized groups (blacklisting exactly the selected indices of those
groups), diff the active sets against the accounted ones, and either break
(`.inr`) or continue (`.inl`) after adjusting the capacity.  The accounted
sets are updated only on the paths that reach line 410, i.e. not when
`netOverheadChange == 0` and not in the capacity-collapse branch. -/
def stepFn (env : OverheadEnv) (pts : List PPoint) (s : PPState) :
    Except PyErr (PPState ⊕ PPState) :=
  match iterate s.capacity (pts.map (·.value)) s.weights with
  | .error e => .error e
  | .ok raw =>
    let net := netChange env pts s raw
    if net = 0 then .ok (.inr (stepBase pts s raw))
    else if 0 < net then
      if s.capacity - net ≤ 0 then
        .ok (.inr { stepBase pts s raw with
                      chosen := List.replicate pts.length false,
                      capacity := s.capacity - net, collapsed := true })
      else
        if net ≤ 1 then .ok (.inr (stepCommit env pts s raw))
        else .ok (.inl (stepCommit env pts s raw))
    else
      if -net ≤ 1 then .ok (.inr (stepCommit env pts s raw))
      else .ok (.inl (stepCommit env pts s raw))

/-- Run the loop for at most `fuel` iterations (`maxIterations = 10`,
ranker.py line 297); reaching the cap commits the current state. -/
def runLoop (env : OverheadEnv) (pts : List PPoint) :
    ℕ → PPState → Except PyErr PPState
  | 0, s => .ok s
  | n + 1, s =>
    match stepFn env pts s with
    | .error e => .error e
    | .ok (.inr s') => .ok s'
    | .ok (.inl s') => runLoop env pts n s'

/-- The sequence of states after each executed iteration, ending with the
state the loop breaks on (or earlier, on error / fuel exhaustion). -/
def traceFrom (env : OverheadEnv) (pts : List PPoint) :
    ℕ → PPState → List PPState
  | 0, _ => []
  | n + 1, s =>
    match stepFn env pts s with
    | .error _ => []
    | .ok (.inr s') => [s']
    | .ok (.inl s') => s' :: traceFrom env pts n s'

/-- The loop's entry state (ranker.py lines 290-296): original line heights
as weights, empty accounted sets, capacity = heightRemaining. -/
def initState (pts : List PPoint) (heightRemaining : ℤ) : PPState :=
  ⟨pts.map (·.lineHeight), List.replicate pts.length false, ∅, ∅, ∅,
    heightRemaining, false, ∅, ∅⟩

/-- What prunePoints returns (ranker.py lines 417-443): keeper indices split
by kind, `usedSpace` = selected original line heights plus the job/section/
project header overhead of the accounted sets (the keyword/link estimates
are not re-added here, matching lines 428-439), and the accounted sets. -/
structure PPResult where
  expKeepers : List ℕ
  projKeepers : List ℕ
  usedSpace : ℤ
  accJobs : Finset ℕ
  accSecs : Finset (ℕ × ℕ)
  accProjs : Finset ℕ
  collapsed : Bool
  rejectedSecs : Finset (ℕ × ℕ)
  rejectedProjs : Finset ℕ
deriving DecidableEq, Inhabited

/-- Assemble the returned tuple from the final loop state. -/
def finishPP (env : OverheadEnv) (pts : List PPoint) (s : PPState) : PPResult :=
  let expK := (List.range pts.length).filter
    (fun i => s.chosen.getD i false && (pts.getD i default).group.isLeft)
  let projK := (List.range pts.length).filter
    (fun i => s.chosen.getD i false && (pts.getD i default).group.isRight)
  let keepersHeight : ℤ := ((expK ++ projK).map
    (fun i => ((pts.getD i default).lineHeight : ℤ))).sum
  let ohJobs := ∑ j ∈ s.accJobs, env.jobOH j
  let ohSecs := ∑ k ∈ s.accSecs, env.secOH k.1 k.2 (isFirstFlag s.accSecs k)
  let ohProjs := if env.hasProjects then ∑ p ∈ s.accProjs, env.projOH p else 0
  ⟨expK, projK, keepersHeight + ohJobs + ohSecs + ohProjs,
    s.accJobs, s.accSecs, s.accProjs, s.collapsed, s.rejectedSecs, s.rejectedProjs⟩

/-- The full selector: run the loop from the entry state and package the
result. -/
def prunePointsLoop (env : OverheadEnv) (pts : List PPoint)
    (heightRemaining : ℤ) : Except PyErr PPResult :=
  (runLoop env pts 10 (initState pts heightRemaining)).map (finishPP env pts)

/-! ## The Selection-to-Document Filter (ranker.py lines 592-708) -/

/-- Python's `sorted` on a list of naturals. -/
def pySorted (l : List ℕ) : List ℕ := List.insertionSort (· ≤ ·) l

/-- The selection handed to `filter`: the chosen items identified by their
metadata (skill/course indices; `(jobIndex, sectionIndex, pointIndex)`
triples for experience points; `(projectIndex, pointIndex)` pairs for
project points; keywords carry either a section-side or a project-side
metadata key), together with the active job/section/project sets. -/
structure FilterSel where
  skillsSel : List ℕ
  coursesSel : List ℕ
  expPointsSel : List (ℕ × ℕ × ℕ)
  projPointsSel : List (ℕ × ℕ)
  keywordsSel : List ((ℕ × ℕ × ℕ) ⊕ (ℕ × ℕ))
  jobsSel : Finset ℕ
  secsSel : Finset (ℕ × ℕ)
  projsSel : Finset ℕ

/-- The filtered copy of one section: points and keywords are rebuilt from
their sorted original positions; a `links` entry is carried over unchanged
(the code drops the key when the list is empty, which the list model renders
as the same empty list). -/
def filterSection (oj : MJob) (j sidx : ℕ) (sel : FilterSel) : MSection :=
  let os := oj.sections.getD sidx default
  { title := os.title,
    points := (pySorted ((sel.expPointsSel.filter
        (fun m => m.1 = j ∧ m.2.1 = sidx)).map (fun m => m.2.2))).map
      (fun p => os.points.getD p ""),
    keywords := (pySorted (sel.keywordsSel.filterMap (fun m =>
        match m with
        | Sum.inl (jj, ss, kk) => if jj = j ∧ ss = sidx then some kk else none
        | Sum.inr _ => none))).map (fun k => os.keywords.getD k ""),
    links := os.links }

/-- The filtered copy of one job (ranker.py lines 624-669). -/
def filterJob (doc : MDoc) (sel : FilterSel) (j : ℕ) : MJob :=
  let oj := doc.jobs.getD j default
  { role := oj.role, company := oj.company, location := oj.location,
    fromDate := oj.fromDate, toDate := oj.toDate,
    sections := (((sel.secsSel.filter (fun q => q.1 = j)).image Prod.snd).sort
        (· ≤ ·)).map (fun sidx => filterSection oj j sidx sel) }

/-- The filtered copy of one project (ranker.py lines 679-706). -/
def filterProject (ps : List MProject) (sel : FilterSel) (pidx : ℕ) : MProject :=
  let op := ps.getD pidx default
  { title := op.title,
    points := (pySorted ((sel.projPointsSel.filter
        (fun m => m.1 = pidx)).map (fun m => m.2))).map
      (fun p => op.points.getD p ""),
    keywords := (pySorted (sel.keywordsSel.filterMap (fun m =>
        match m with
        | Sum.inl _ => none
        | Sum.inr (pp, kk) => if pp = pidx then some kk else none))).map
      (fun k => op.keywords.getD k ""),
    links := op.links }

/-- filter (ranker.py lines 592-708): a trimmed copy of the document.  The
output carries a `projects` entry exactly when the source has a projects
block and the active project set is non-empty (line 672). -/
def pyFilter (doc : MDoc) (sel : FilterSel) : MDoc :=
  { contact := doc.contact,
    skillsTitle := doc.skillsTitle,
    skills := (pySorted sel.skillsSel).map (fun i => doc.skills.getD i ""),
    experienceTitle := doc.experienceTitle,
    jobs := (sel.jobsSel.sort (· ≤ ·)).map (filterJob doc sel),
    educationBlock := doc.educationBlock,
    courses := (pySorted sel.coursesSel).map (fun i => doc.courses.getD i ""),
    projectsTitle := doc.projectsTitle,
    projects :=
      match doc.projects with
      | none => none
      | some ps =>
        if sel.projsSel = ∅ then none
        else some ((sel.projsSel.sort (· ≤ ·)).map (filterProject ps sel)) }

/-! ## The entry point's unpacking (resublox.py line 38) -/

/-- The keys of the dictionary `filter` returns, in insertion order
(ranker.py lines 601-606 and 672-677). -/
def filteredKeys (out : MDoc) : List String :=
  ["contact", "skills", "experience", "education"] ++
    (if out.projects.isSome then ["projects"] else [])

/-- Python tuple-unpacking `a, b, c, d, e = d` of a dictionary: iterating a
dict yields its keys; the assignment raises ValueError unless there are
exactly five of them. -/
def unpack5 (ks : List String) :
    Except PyErr (String × String × String × String × String) :=
  match ks with
  | [a, b, c, d, e] => .ok (a, b, c, d, e)
  | _ => .error .valueError

/-! ## Concrete instances used by the witnesses and counterexamples -/

/-- An overhead environment in which every estimator returns zero. -/
def zeroEnv : OverheadEnv :=
  ⟨fun _ => 0, fun _ _ _ => 0, fun _ _ => 0, fun _ _ => 0,
    fun _ => 0, fun _ => 0, fun _ => 0, false⟩

/-- Collapse-after-commitment scenario: job 0 / section (0,0) holds three
points of height 10 and value 10; job 1 / section (1,0) holds three points
of height 9 and value 19/2. -/
def c5Pts : List PPoint :=
  [⟨10, 10, Sum.inl (0, 0)⟩, ⟨10, 10, Sum.inl (0, 0)⟩, ⟨10, 10, Sum.inl (0, 0)⟩,
   ⟨19/2, 9, Sum.inl (1, 0)⟩, ⟨19/2, 9, Sum.inl (1, 0)⟩, ⟨19/2, 9, Sum.inl (1, 0)⟩]

/-- Job 0 costs 3 units of overhead, job 1 costs 100; sections and estimates
are free. -/
def c5Env : OverheadEnv :=
  { zeroEnv with jobOH := fun j => if j = 0 then 3 else 100 }

/-- Group-reappearance scenario: section (0,0) has five points — two of
height 10 and value 10, three of height 3 and value 1 — and section (1,0)
has three points of height 1 and value 100. -/
def c6Pts : List PPoint :=
  [⟨10, 10, Sum.inl (0, 0)⟩, ⟨10, 10, Sum.inl (0, 0)⟩,
   ⟨1, 3, Sum.inl (0, 0)⟩, ⟨1, 3, Sum.inl (0, 0)⟩, ⟨1, 3, Sum.inl (0, 0)⟩,
   ⟨100, 1, Sum.inl (1, 0)⟩, ⟨100, 1, Sum.inl (1, 0)⟩, ⟨100, 1, Sum.inl (1, 0)⟩]

/-- Job 0 costs 2 units of overhead, job 1 costs 3. -/
def c6Env : OverheadEnv :=
  { zeroEnv with jobOH := fun j => if j = 0 then 2 else 3 }

/-- First-iteration collapse scenario: one section of three points that fit
the capacity, whose job overhead (1000) then exceeds it. -/
def w5Pts : List PPoint :=
  [⟨1, 10, Sum.inl (0, 0)⟩, ⟨1, 10, Sum.inl (0, 0)⟩, ⟨1, 10, Sum.inl (0, 0)⟩]

/-- The environment charging 1000 per job. -/
def w5Env : OverheadEnv := { zeroEnv with jobOH := fun _ => 1000 }

/-- Entry state of the first-iteration collapse scenario. -/
def w5S0 : PPState := initState w5Pts 30

/-- The state the first-iteration collapse commits. -/
def w5Col : PPState :=
  match stepFn w5Env w5Pts w5S0 with
  | .ok (.inr s) => s
  | _ => default

/-- A single already-blacklisted point. -/
def w6Pts : List PPoint := [⟨1, 10, Sum.inl (0, 0)⟩]

/-- A mid-run state in which that point's weight is the sentinel and the
capacity is below it. -/
def w6S : PPState := ⟨[BLACKLIST_WEIGHT], [false], ∅, ∅, ∅, 5, false, ∅, ∅⟩

/-- Document with two skills, one job of one section (two points, two
keywords, one link), one course, and one project (one point, one keyword). -/
def w8Doc : MDoc :=
  { contact := "c",
    skillsTitle := "Skills", skills := ["s0", "s1"],
    experienceTitle := "Experience",
    jobs := [{ role := "r", company := "co", location := "l",
               fromDate := "f", toDate := "t",
               sections := [{ title := "sec", points := ["p0", "p1"],
                              keywords := ["k0", "k1"], links := ["lnk"] }] }],
    educationBlock := "edu", courses := ["c0"],
    projectsTitle := "Projects",
    projects := some [{ title := "proj", points := ["pp0"],
                        keywords := ["pk0"], links := [] }] }

/-- A selection retaining skill 1, course 0, both points of section (0,0) in
reversed list order, keyword 1, the project point and project keyword, with
all groups active. -/
def w8Sel : FilterSel :=
  { skillsSel := [1], coursesSel := [0],
    expPointsSel := [(0, 0, 1), (0, 0, 0)],
    projPointsSel := [(0, 0)],
    keywordsSel := [Sum.inl (0, 0, 1), Sum.inr (0, 0)],
    jobsSel := {0}, secsSel := {(0, 0)}, projsSel := {0} }

/-- CharWidths instance mapping every character to advance width 0, used as
a zero-width-font witness. -/
def cwZero : CharWidths := fun _ => some 0

/-- Pointwise: a filtered section's title matches and its point/keyword lists
are order-preserving sublists of the original section's. -/
def SecOf (f o : MSection) : Prop :=
  f.title = o.title ∧ f.points.Sublist o.points ∧ f.keywords.Sublist o.keywords

/-- Pointwise: a filtered job keeps the header fields and its section list is
a pointwise order-preserving sublist of the original job's. -/
def JobOf (f o : MJob) : Prop :=
  f.role = o.role ∧ f.company = o.company ∧ f.location = o.location ∧
    f.fromDate = o.fromDate ∧ f.toDate = o.toDate ∧
    List.SublistForall₂ SecOf f.sections o.sections

/-- Pointwise: a filtered project's title matches and its point/keyword lists
are order-preserving sublists of the original project's. -/
def ProjOf (f o : MProject) : Prop :=
  f.title = o.title ∧ f.points.Sublist o.points ∧ f.keywords.Sublist o.keywords

/-! ## Helper lemmas: list indexing and selection accounting -/

theorem getD_append_lt {α : Type} (s t : List α) (d : α) (i : ℕ)
    (h : i < s.length) : (s ++ t).getD i d = s.getD i d := by
  simp [List.getD_eq_getElem?_getD, List.getElem?_append, h]

theorem getD_append_len {α : Type} (s : List α) (b d : α) :
    (s ++ [b]).getD s.length d = b := by
  simp [List.getD_eq_getElem?_getD, List.getElem?_append_right (Nat.le_refl _)]

theorem getD_append_gt {α : Type} (s : List α) (b d : α) (i : ℕ)
    (h : s.length < i) : (s ++ [b]).getD i d = d := by
  rw [List.getD_eq_getElem?_getD, List.getElem?_eq_none]
  · rfl
  · simpa using h

theorem getD_replicate_self {α : Type} (n : ℕ) (a d : α) (i : ℕ) :
    (List.replicate n a).getD i d = if i < n then a else d := by
  rcases Nat.lt_or_ge i n with h | h
  · simp [List.getD_eq_getElem?_getD, List.getElem?_replicate, h]
  · rw [List.getD_eq_getElem?_getD, List.getElem?_eq_none (by simpa using h)]
    simp [Nat.not_lt.mpr h]

theorem getD_map_range {α : Type} (n : ℕ) (f : ℕ → α) (d : α) (i : ℕ)
    (h : i < n) : ((List.range n).map f).getD i d = f i := by
  rw [List.getD_eq_getElem?_getD, List.getElem?_map, List.getElem?_range h]
  rfl

theorem map_getD_range_self (v : List ℚ) :
    (List.range v.length).map (fun i => v.getD i 0) = v := by
  apply List.ext_getElem
  · simp
  · intro i h1 h2
    simp only [List.getElem_map, List.getElem_range]
    rw [List.getD_eq_getElem?_getD, List.getElem?_eq_getElem h2]
    rfl

theorem selIdx_nil : selIdx [] = ∅ := rfl

theorem selIdx_append_false (s : List Bool) : selIdx (s ++ [false]) = selIdx s := by
  ext i
  simp only [selIdx, Finset.mem_filter, Finset.mem_range, List.length_append,
    List.length_cons, List.length_nil]
  constructor
  · rintro ⟨hi, hsel⟩
    rcases Nat.lt_or_ge i s.length with h | h
    · exact ⟨h, by rwa [getD_append_lt _ _ _ _ h] at hsel⟩
    · rcases Nat.lt_or_ge s.length i with h' | h'
      · rw [getD_append_gt _ _ _ _ h'] at hsel; exact absurd hsel (by simp)
      · have : i = s.length := Nat.le_antisymm h' h
        rw [this, getD_append_len] at hsel
        exact absurd hsel (by simp)
  · rintro ⟨hi, hsel⟩
    exact ⟨Nat.lt_succ_of_lt hi, by rwa [getD_append_lt _ _ _ _ hi]⟩

theorem selIdx_append_true (s : List Bool) :
    selIdx (s ++ [true]) = insert s.length (selIdx s) := by
  ext i
  simp only [selIdx, Finset.mem_filter, Finset.mem_range, Finset.mem_insert,
    List.length_append, List.length_cons, List.length_nil]
  constructor
  · rintro ⟨hi, hsel⟩
    rcases Nat.lt_or_ge i s.length with h | h
    · exact .inr ⟨h, by rwa [getD_append_lt _ _ _ _ h] at hsel⟩
    · rcases Nat.lt_or_ge s.length i with h' | h'
      · rw [getD_append_gt _ _ _ _ h'] at hsel; exact absurd hsel (by simp)
      · exact .inl (Nat.le_antisymm h' h)
  · rintro (rfl | ⟨hi, hsel⟩)
    · exact ⟨Nat.lt_succ_self _, by rw [getD_append_len]⟩
    · exact ⟨Nat.lt_succ_of_lt hi, by rwa [getD_append_lt _ _ _ _ hi]⟩

theorem length_not_mem_selIdx (s : List Bool) : s.length ∉ selIdx s := by
  simp [selIdx]

theorem selValue_append_false (v : List ℚ) (s : List Bool) :
    selValue v (s ++ [false]) = selValue v s := by
  simp [selValue, selIdx_append_false]

theorem selValue_append_true (v : List ℚ) (s : List Bool) :
    selValue v (s ++ [true]) = v.getD s.length 0 + selValue v s := by
  simp [selValue, selIdx_append_true, Finset.sum_insert (length_not_mem_selIdx s)]

theorem selWeight_append_false (w : List ℕ) (s : List Bool) :
    selWeight w (s ++ [false]) = selWeight w s := by
  simp [selWeight, selIdx_append_false]

theorem selWeight_append_true (w : List ℕ) (s : List Bool) :
    selWeight w (s ++ [true]) = w.getD s.length 0 + selWeight w s := by
  simp [selWeight, selIdx_append_true, Finset.sum_insert (length_not_mem_selIdx s)]

theorem selValue_nil (v : List ℚ) : selValue v [] = 0 := rfl

theorem selWeight_nil (w : List ℕ) : selWeight w [] = 0 := rfl

/-! ## Helper lemmas: the DP table and its reconstruction -/

theorem ksTable_w_zero (v : List ℚ) (w : List ℕ) (i : ℕ) :
    ksTable v w i 0 = 0 := by
  cases i <;> rfl

theorem ksTable_mono_item (v : List ℚ) (wt : List ℕ) (i w : ℕ) :
    ksTable v wt i w ≤ ksTable v wt (i + 1) w := by
  cases w with
  | zero => simp [ksTable_w_zero]
  | succ w' =>
    rw [ksTable]
    split
    · exact le_max_right _ _
    · exact le_refl _

theorem ksTable_ne_succ (v : List ℚ) (wt : List ℕ) (i w : ℕ)
    (h : ksTable v wt (i + 1) w ≠ ksTable v wt i w) :
    wt.getD i 0 ≤ w ∧
      ksTable v wt (i + 1) w =
        v.getD i 0 + ksTable v wt i (w - wt.getD i 0) := by
  cases w with
  | zero => simp [ksTable_w_zero] at h
  | succ w' =>
    rw [ksTable] at h ⊢
    by_cases hc : wt.getD i 0 ≤ w' + 1
    · simp only [if_pos hc] at h ⊢
      rcases max_choice (v.getD i 0 + ksTable v wt i (w' + 1 - wt.getD i 0))
        (ksTable v wt i (w' + 1)) with hm | hm
      · exact ⟨hc, hm⟩
      · exact absurd hm h
    · simp only [if_neg hc] at h
      exact absurd rfl h

theorem ksSelect_length (v : List ℚ) (wt : List ℕ) :
    ∀ i w, (ksSelect v wt i w).length = i := by
  intro i
  induction i with
  | zero => intro w; rfl
  | succ i ih =>
    intro w
    rw [ksSelect]
    split <;> simp [ih]

/-- Achievability: the reconstructed selection is feasible and realises the
table value. -/
theorem ksSelect_spec (v : List ℚ) (wt : List ℕ) :
    ∀ i w, selWeight wt (ksSelect v wt i w) ≤ w ∧
      selValue v (ksSelect v wt i w) = ksTable v wt i w := by
  intro i
  induction i with
  | zero => intro w; exact ⟨Nat.zero_le _, rfl⟩
  | succ i ih =>
    intro w
    rw [ksSelect]
    by_cases h : ksTable v wt (i + 1) w ≠ ksTable v wt i w
    · obtain ⟨hle, heq⟩ := ksTable_ne_succ v wt i w h
      obtain ⟨ihw, ihv⟩ := ih (w - wt.getD i 0)
      rw [if_pos h]
      have hlen : (ksSelect v wt i (w - wt.getD i 0)).length = i :=
        ksSelect_length v wt i _
      constructor
      · rw [selWeight_append_true, hlen]
        calc wt.getD i 0 + selWeight wt (ksSelect v wt i (w - wt.getD i 0))
            ≤ wt.getD i 0 + (w - wt.getD i 0) := by omega
          _ = w := by omega
      · rw [selValue_append_true, hlen, ihv, heq]
    · obtain ⟨ihw, ihv⟩ := ih w
      rw [if_neg h]
      have hlen : (ksSelect v wt i w).length = i := ksSelect_length v wt i w
      push_neg at h
      constructor
      · rwa [selWeight_append_false]
      · rw [selValue_append_false, ihv, h]

/-- Upper bound: no selection of the first `i` items with weight within `w`
beats the table entry, provided those weights are positive. -/
theorem ksTable_upper_bound (v : List ℚ) (wt : List ℕ)
    (hpos : ∀ x ∈ wt, 0 < x) :
    ∀ i, i ≤ wt.length → ∀ w (sel : List Bool), sel.length = i →
      selWeight wt sel ≤ w → selValue v sel ≤ ksTable v wt i w := by
  intro i
  induction i with
  | zero =>
    intro _ w sel hlen _
    rw [List.length_eq_zero] at hlen
    subst hlen
    simp [selValue_nil, ksTable]
  | succ i ih =>
    intro hle w sel hlen hwt
    rcases List.eq_nil_or_concat sel with rfl | ⟨s, b, rfl⟩
    · simp at hlen
    · rw [List.concat_eq_append] at *
      have hs : s.length = i := by simpa using hlen
      have hi : i < wt.length := Nat.lt_of_lt_of_le (Nat.lt_succ_self i) hle
      cases b with
      | false =>
        rw [selValue_append_false]
        rw [selWeight_append_false] at hwt
        exact le_trans (ih (Nat.le_of_succ_le hle) w s hs hwt)
          (ksTable_mono_item v wt i w)
      | true =>
        rw [selWeight_append_true, hs] at hwt
        rw [selValue_append_true, hs]
        have hwi : 0 < wt.getD i 0 := by
          have : wt.getD i 0 = wt[i] := List.getD_eq_getElem wt 0 hi
          rw [this]
          exact hpos _ (List.getElem_mem hi)
        have hwle : wt.getD i 0 ≤ w := le_trans (Nat.le_add_right _ _) hwt
        have hsw : selWeight wt s ≤ w - wt.getD i 0 := by omega
        cases w with
        | zero => omega
        | succ w' =>
          rw [ksTable, if_pos hwle]
          exact le_trans
            (add_le_add_left (ih (Nat.le_of_succ_le hle) _ s hs hsw)
              (v.getD i 0))
            (le_max_left _ _)

theorem ksSelect_w_zero (v : List ℚ) (wt : List ℕ) :
    ∀ i, ksSelect v wt i 0 = List.replicate i false := by
  intro i
  induction i with
  | zero => rfl
  | succ i ih =>
    rw [ksSelect, if_neg (by simp [ksTable_w_zero]), ih,
      ← List.replicate_succ' i false]

/-- A reconstructed flag is only set when its item's weight fits the
remaining capacity (hence fits the full capacity). -/
theorem ksSelect_chosen_weight_le (v : List ℚ) (wt : List ℕ) :
    ∀ i w j, (ksSelect v wt i w).getD j false = true → wt.getD j 0 ≤ w := by
  intro i
  induction i with
  | zero =>
    intro w j h
    simp [ksSelect, List.getD] at h
  | succ i ih =>
    intro w j h
    rw [ksSelect] at h
    have hlen : ∀ w', (ksSelect v wt i w').length = i := ksSelect_length v wt i
    by_cases hne : ksTable v wt (i + 1) w ≠ ksTable v wt i w
    · rw [if_pos hne] at h
      obtain ⟨hle, _⟩ := ksTable_ne_succ v wt i w hne
      rcases Nat.lt_trichotomy j i with hj | rfl | hj
      · rw [getD_append_lt _ _ _ _ (by rw [hlen]; exact hj)] at h
        exact le_trans (ih _ j h) (Nat.sub_le _ _)
      · exact hle
      · rw [getD_append_gt _ _ _ _ (by rw [hlen]; exact hj)] at h
        exact absurd h (by simp)
    · rw [if_neg hne] at h
      rcases Nat.lt_trichotomy j i with hj | rfl | hj
      · rw [getD_append_lt _ _ _ _ (by rw [hlen]; exact hj)] at h
        exact ih _ j h
      · have hfalse : (ksSelect v wt j w ++ [false]).getD j false = false := by
          have hl := hlen w
          calc (ksSelect v wt j w ++ [false]).getD j false
              = (ksSelect v wt j w ++ [false]).getD
                  (ksSelect v wt j w).length false := by rw [hl]
            _ = false := getD_append_len _ _ _
        rw [hfalse] at h
        exact absurd h (by simp)
      · rw [getD_append_gt _ _ _ _ (by rw [hlen]; exact hj)] at h
        exact absurd h (by simp)

/-! ## Claim C2 — knapsack optimality -/

/-- For positive weights, the backward reconstruction `ksSelect` is feasible,
realises exactly the table optimum `ksTable`, and no selection within the
capacity beats it. -/
theorem ksSelect_optimal (v : List ℚ) (wt : List ℕ)
    (hpos : ∀ x ∈ wt, 0 < x) (hlen : v.length ≤ wt.length) (capN : ℕ) :
    selWeight wt (ksSelect v wt v.length capN) ≤ capN ∧
    selValue v (ksSelect v wt v.length capN) = ksTable v wt v.length capN ∧
    ∀ other : List Bool, other.length = v.length →
      selWeight wt other ≤ capN →
        selValue v other ≤ selValue v (ksSelect v wt v.length capN) := by
  refine ⟨(ksSelect_spec v wt v.length capN).1,
    (ksSelect_spec v wt v.length capN).2, ?_⟩
  intro other hol how
  rw [(ksSelect_spec v wt v.length capN).2]
  exact ksTable_upper_bound v wt hpos v.length hlen capN other hol how

/-- C2 (amended): for values of any sign, *positive* integer weights of the
same length, and a nonnegative capacity, the solver returns without error the
selection produced by the backward reconstruction (select item i−1 iff
table[i][w] ≠ table[i−1][w]); that selection has the right length, its total
weight is within the capacity, its total value equals the filled table's
optimum table[n][capacity], and no selection within the capacity has larger
total value.  (As stated the claim also covers weight-0 items, where the
solver is suboptimal — see the counterexample — and negative capacities,
where it raises.) -/
theorem knapsack_optimal (v : List ℚ) (wt : List ℕ) (cap : ℤ)
    (hlen : v.length = wt.length) (hpos : ∀ x ∈ wt, 0 < x) (hcap : 0 ≤ cap) :
    knapsack v wt cap = .ok (ksSelect v wt v.length cap.toNat) ∧
    (ksSelect v wt v.length cap.toNat).length = v.length ∧
    (selWeight wt (ksSelect v wt v.length cap.toNat) : ℤ) ≤ cap ∧
    selValue v (ksSelect v wt v.length cap.toNat) =
      ksTable v wt v.length cap.toNat ∧
    ∀ other : List Bool, other.length = v.length →
      (selWeight wt other : ℤ) ≤ cap →
        selValue v other ≤ selValue v (ksSelect v wt v.length cap.toNat) := by
  have hc : (cap.toNat : ℤ) = cap := Int.toNat_of_nonneg hcap
  obtain ⟨h1, h2, h3⟩ := ksSelect_optimal v wt hpos (le_of_eq hlen) cap.toNat
  refine ⟨?_, ksSelect_length v wt _ _, by omega, h2, ?_⟩
  · unfold knapsack
    rw [if_neg (by simp [hlen]), if_neg (by omega), if_neg (by omega)]
  · intro other hol how
    exact h3 other hol (by omega)

/-- Witness for `knapsack_optimal` at values [1,2], weights [1,2],
capacity 2. -/
theorem knapsack_optimal_witness :
    knapsack [(1:ℚ), 2] [1, 2] 2 =
      .ok (ksSelect [(1:ℚ), 2] [1, 2] [(1:ℚ), 2].length (2:ℤ).toNat) ∧
    (ksSelect [(1:ℚ), 2] [1, 2] [(1:ℚ), 2].length (2:ℤ).toNat).length =
      [(1:ℚ), 2].length ∧
    (selWeight [1, 2]
      (ksSelect [(1:ℚ), 2] [1, 2] [(1:ℚ), 2].length (2:ℤ).toNat) : ℤ) ≤ 2 ∧
    selValue [(1:ℚ), 2]
        (ksSelect [(1:ℚ), 2] [1, 2] [(1:ℚ), 2].length (2:ℤ).toNat) =
      ksTable [(1:ℚ), 2] [1, 2] [(1:ℚ), 2].length (2:ℤ).toNat ∧
    ∀ other : List Bool, other.length = [(1:ℚ), 2].length →
      (selWeight [1, 2] other : ℤ) ≤ 2 →
        selValue [(1:ℚ), 2] other ≤ selValue [(1:ℚ), 2]
          (ksSelect [(1:ℚ), 2] [1, 2] [(1:ℚ), 2].length (2:ℤ).toNat) :=
  knapsack_optimal [(1:ℚ), 2] [1, 2] 2 (by decide) (by decide) (by decide)

unseal Rat.add Rat.mul Rat.inv Rat.sub in
/-- Counterexample to C2 as stated: with a weight-0 item the solver returns
the selection of item 0 alone, of value 5, yet taking both items also fits
capacity 1 and has value 6 — the inner DP loop starts at w = 1 and leaves
column 0 zero, so zero-weight items are invisible at residual capacity 0. -/
theorem knapsack_zero_weight_cex :
    knapsack [(5:ℚ), 1] [0, 1] 1 = .ok [true, false] ∧
    [true, true].length = [(5:ℚ), 1].length ∧
    (selWeight [0, 1] [true, true] : ℤ) ≤ 1 ∧
    selValue [(5:ℚ), 1] [true, false] < selValue [(5:ℚ), 1] [true, true] := by
  refine ⟨by decide, by decide, by decide, by decide⟩

/-! ## Claim C4 — capacity at most zero -/

/-- C4 (amended): with matching lengths, `knapsack` at capacity exactly 0
returns the all-false selection without error, and the in-code wrapper
`iterate` returns the all-false selection for *every* capacity ≤ 0; a
negative capacity passed directly to `knapsack` raises instead (see the
counterexample). -/
theorem solver_nonpositive_capacity (v : List ℚ) (wt : List ℕ) (cap : ℤ)
    (hlen : v.length = wt.length) (hcap : cap ≤ 0) :
    knapsack v wt 0 = .ok (List.replicate v.length false) ∧
    iterate cap v wt = .ok (List.replicate v.length false) := by
  constructor
  · unfold knapsack
    rw [if_neg (by simp [hlen]), if_neg (by omega), if_neg (by omega)]
    rw [show (0 : ℤ).toNat = 0 from rfl, ksSelect_w_zero]
  · unfold iterate
    rw [if_pos hcap]

/-- Witness for `solver_nonpositive_capacity` at one item of weight 3 and
capacity −5. -/
theorem solver_nonpositive_capacity_witness :
    knapsack [(2:ℚ)] [3] 0 = .ok (List.replicate 1 false) ∧
    iterate (-5) [(2:ℚ)] [3] = .ok (List.replicate 1 false) :=
  solver_nonpositive_capacity [(2:ℚ)] [3] (-5) (by decide) (by decide)

/-- Counterexample to C4 as stated: calling `knapsack` itself with a
negative capacity raises (IndexError at capacity −1 via `table[i][-1]` on a
zero-width table, ValueError below −1 from `np.zeros` with a negative
dimension) instead of returning the all-false selection. -/
theorem knapsack_negative_capacity_cex :
    knapsack [(1:ℚ)] [1] (-1) = .error .indexError ∧
    knapsack [(1:ℚ)] [1] (-2) = .error .valueError := by
  refine ⟨by decide, by decide⟩

/-! ## Helper lemmas: sums of the largest elements -/

/-- Shifting one slot of a take against a dominating head: for a list of
elements all at most `a` (with `a` nonnegative), taking one more element
costs at most `a`. -/
theorem take_succ_sum_le (a : ℚ) :
    ∀ (m : List ℚ) (j : ℕ), (∀ x ∈ m, x ≤ a) → 0 ≤ a →
      (m.take (j + 1)).sum ≤ a + (m.take j).sum := by
  intro m
  induction m with
  | nil => intro j _ ha; simpa using ha
  | cons b m ih =>
    intro j hle ha
    cases j with
    | zero =>
      simpa using hle b (List.mem_cons_self b m)
    | succ j' =>
      simp only [List.take_succ_cons, List.sum_cons]
      have := ih j' (fun x hx => hle x (List.mem_cons_of_mem b hx)) ha
      linarith

/-- A sublist of a descending-sorted nonnegative list is dominated by the
same number of leading elements. -/
theorem sublist_sum_le_take :
    ∀ {t L : List ℚ}, t.Sublist L → L.Sorted (· ≥ ·) → (∀ x ∈ L, 0 ≤ x) →
      ∀ j, t.length ≤ j → t.sum ≤ (L.take j).sum := by
  intro t L h
  induction h with
  | slnil =>
    intro _ _ j _
    simp
  | @cons t M a h ih =>
    intro hs hnn j hj
    cases j with
    | zero =>
      rw [Nat.le_zero, List.length_eq_zero] at hj
      subst hj
      simp
    | succ j' =>
      have hsM : M.Sorted (· ≥ ·) := hs.of_cons
      have hnnM : ∀ x ∈ M, 0 ≤ x := fun x hx => hnn x (List.mem_cons_of_mem a hx)
      have h1 := ih hsM hnnM (j' + 1) hj
      have h2 : (M.take (j' + 1)).sum ≤ a + (M.take j').sum :=
        take_succ_sum_le a M j' (fun x hx => List.rel_of_sorted_cons hs x hx)
          (hnn a (List.mem_cons_self a M))
      calc t.sum ≤ (M.take (j' + 1)).sum := h1
        _ ≤ a + (M.take j').sum := h2
        _ = ((a :: M).take (j' + 1)).sum := by simp
  | @cons₂ t M a h ih =>
    intro hs hnn j hj
    cases j with
    | zero => simp at hj
    | succ j' =>
      have hsM : M.Sorted (· ≥ ·) := hs.of_cons
      have hnnM : ∀ x ∈ M, 0 ≤ x := fun x hx => hnn x (List.mem_cons_of_mem a hx)
      have h1 := ih hsM hnnM j' (by simpa using hj)
      simp only [List.take_succ_cons, List.sum_cons]
      linarith

/-- The multiset form: any sub-multiset of a descending-sorted nonnegative
list with at most `j` elements is dominated by the first `j` elements. -/
theorem submultiset_sum_le_take (L : List ℚ) (hs : L.Sorted (· ≥ ·))
    (hnn : ∀ x ∈ L, 0 ≤ x) (T : Multiset ℚ) (hT : T ≤ (L : Multiset ℚ))
    (j : ℕ) (hc : Multiset.card T ≤ j) : T.sum ≤ (L.take j).sum := by
  obtain ⟨t, rfl⟩ := Quotient.exists_rep T
  have ht : List.Subperm t L := Multiset.coe_le.mp hT
  obtain ⟨u, hu, hsub⟩ := ht
  have h1 : Multiset.sum ⟦t⟧ = t.sum := Multiset.sum_coe t
  have h2 : u.sum = t.sum := hu.sum_eq
  have h3 : Multiset.card ⟦t⟧ = t.length := Multiset.coe_card t
  have h4 : u.length = t.length := hu.length_eq
  rw [h1, ← h2]
  exact sublist_sum_le_take hsub hs hnn j (by omega)

/-! ## Helper lemmas: the greedy fast path -/

theorem greedyOrder_perm (v : List ℚ) :
    (greedyOrder v).Perm (List.range v.length) :=
  List.perm_insertionSort _ _

theorem greedyOrder_nodup (v : List ℚ) : (greedyOrder v).Nodup :=
  (greedyOrder_perm v).nodup_iff.mpr (List.nodup_range _)

theorem greedyOrder_sorted (v : List ℚ) :
    (greedyOrder v).Sorted (greedyRank v) :=
  List.sorted_insertionSort _ _

theorem mem_greedyOrder (v : List ℚ) (i : ℕ) :
    i ∈ greedyOrder v ↔ i < v.length := by
  rw [(greedyOrder_perm v).mem_iff, List.mem_range]

/-- The values of the greedy order, in selection order. -/
def greedyVals (v : List ℚ) : List ℚ :=
  (greedyOrder v).map (fun i => v.getD i 0)

theorem greedyVals_sorted (v : List ℚ) : (greedyVals v).Sorted (· ≥ ·) := by
  refine List.Pairwise.map _ ?_ (greedyOrder_sorted v)
  intro a b hab
  rcases hab with h | ⟨h, _⟩
  · exact le_of_lt h
  · exact le_of_eq h.symm

theorem greedyVals_nonneg (v : List ℚ) (hnn : ∀ x ∈ v, 0 ≤ x) :
    ∀ x ∈ greedyVals v, 0 ≤ x := by
  intro x hx
  obtain ⟨i, hi, rfl⟩ := List.mem_map.mp hx
  have hlt : i < v.length := (mem_greedyOrder v i).mp hi
  rw [List.getD_eq_getElem v 0 hlt]
  exact hnn _ (List.getElem_mem hlt)

theorem greedyVals_perm (v : List ℚ) : (greedyVals v).Perm v := by
  have h := (greedyOrder_perm v).map (fun i => v.getD i 0)
  rwa [map_getD_range_self v] at h

theorem greedyChosen_length (v : List ℚ) (k : ℕ) :
    (greedyChosen v k).length = v.length := by
  simp [greedyChosen]

theorem selIdx_greedyChosen (v : List ℚ) (k : ℕ) :
    selIdx (greedyChosen v k) = ((greedyOrder v).take k).toFinset := by
  ext i
  simp only [selIdx, Finset.mem_filter, Finset.mem_range, greedyChosen_length,
    List.mem_toFinset]
  constructor
  · rintro ⟨hi, hsel⟩
    rw [greedyChosen, getD_map_range _ _ _ _ hi] at hsel
    exact of_decide_eq_true hsel
  · intro hmem
    have hio : i ∈ greedyOrder v := List.mem_of_mem_take hmem
    have hi : i < v.length := (mem_greedyOrder v i).mp hio
    refine ⟨hi, ?_⟩
    rw [greedyChosen, getD_map_range _ _ _ _ hi]
    exact decide_eq_true hmem

theorem card_selIdx_greedyChosen (v : List ℚ) (k : ℕ) :
    (selIdx (greedyChosen v k)).card = ((greedyOrder v).take k).length := by
  rw [selIdx_greedyChosen]
  exact List.toFinset_card_of_nodup ((greedyOrder_nodup v).sublist
    (List.take_sublist k _))

theorem selValue_greedyChosen (v : List ℚ) (k : ℕ) :
    selValue v (greedyChosen v k) = ((greedyVals v).take k).sum := by
  rw [selValue, selIdx_greedyChosen, greedyVals, ← List.map_take]
  exact List.sum_toFinset _ ((greedyOrder_nodup v).sublist (List.take_sublist k _))

theorem selWeight_uniform (n w : ℕ) (sel : List Bool) (h : sel.length = n) :
    selWeight (List.replicate n w) sel = (selIdx sel).card * w := by
  rw [selWeight, Finset.sum_congr rfl (fun i hi => ?_), Finset.sum_const,
    smul_eq_mul]
  have hi' : i < n := by
    have := (Finset.mem_filter.mp hi).1
    rw [Finset.mem_range, h] at this
    exact this
  rw [getD_replicate_self, if_pos hi']

/-- The multiset of values a selection picks is a sub-multiset of the
greedy-sorted value list. -/
theorem sel_multiset_le (v : List ℚ) (sel : List Bool)
    (h : sel.length = v.length) :
    Multiset.map (fun i => v.getD i 0) (selIdx sel).val ≤
      ((greedyVals v : List ℚ) : Multiset ℚ) := by
  have hsub : selIdx sel ⊆ Finset.range v.length := by
    intro i hi
    have := (Finset.mem_filter.mp hi).1
    rwa [h] at this
  have h1 : (selIdx sel).val ≤ (Finset.range v.length).val :=
    Finset.val_le_iff.mpr hsub
  have h2 := Multiset.map_le_map (f := fun i => v.getD i 0) h1
  have h3 : Multiset.map (fun i => v.getD i 0) (Finset.range v.length).val =
      ((greedyVals v : List ℚ) : Multiset ℚ) := by
    rw [Finset.range_val]
    have h4 : Multiset.map (fun i => v.getD i 0) (Multiset.range v.length) =
        ((List.range v.length).map (fun i => v.getD i 0) : List ℚ) := by
      rfl
    rw [h4, map_getD_range_self v]
    exact Quot.sound (greedyVals_perm v).symm
  rwa [h3] at h2

theorem selValue_eq_multiset_sum (v : List ℚ) (sel : List Bool) :
    selValue v sel =
      (Multiset.map (fun i => v.getD i 0) (selIdx sel).val).sum := rfl

/-! ## Claim C3 — uniform-weight greedy fast path -/

/-- C3 (amended): for a non-empty value list with *nonnegative* values, a
uniform positive weight and a positive capacity, the greedy fast path and
the full DP solver both succeed and select subsets of equal total value.
(As stated the claim also covers negative values, where the greedy path
force-fills the quota and is strictly worse — see the counterexample.) -/
theorem iterate_uniform_matches_dp (v : List ℚ) (w : ℕ) (cap : ℤ)
    (hne : v ≠ []) (hw : 0 < w) (hcap : 0 < cap) (hnn : ∀ x ∈ v, 0 ≤ x) :
    ∃ g d, iterate cap v (List.replicate v.length w) = .ok g ∧
      knapsack v (List.replicate v.length w) cap = .ok d ∧
      selValue v g = selValue v d := by
  have hn : 0 < v.length := List.length_pos.mpr hne
  have hcapn : (cap.toNat : ℤ) = cap := Int.toNat_of_nonneg (le_of_lt hcap)
  obtain ⟨m, hm⟩ : ∃ m, v.length = m + 1 := ⟨v.length - 1, by omega⟩
  have hhead : (List.replicate v.length w).headD 0 = w := by
    rw [hm, List.replicate_succ]
    rfl
  have hiter : iterate cap v (List.replicate v.length w) =
      .ok (greedyChosen v (cap.toNat / w)) := by
    unfold iterate
    rw [if_neg (by omega), if_pos, if_neg, if_neg (by rw [hhead]; omega), hhead]
    · rw [hm, List.replicate_succ]
      simp [List.isEmpty]
    · rw [List.all_eq_true]
      intro x hx
      rw [List.eq_of_mem_replicate hx, hhead]
      simp
  obtain ⟨d, hd, hdlen, hdw, hdopt⟩ :
      ∃ sel, knapsack v (List.replicate v.length w) cap = .ok sel ∧
        sel.length = v.length ∧
        (selWeight (List.replicate v.length w) sel : ℤ) ≤ cap ∧
        ∀ other : List Bool, other.length = v.length →
          (selWeight (List.replicate v.length w) other : ℤ) ≤ cap →
            selValue v other ≤ selValue v sel := by
    obtain ⟨h1, h2, h3⟩ := ksSelect_optimal v (List.replicate v.length w)
      (fun x hx => by rw [List.eq_of_mem_replicate hx]; exact hw)
      (by simp) cap.toNat
    refine ⟨ksSelect v (List.replicate v.length w) v.length cap.toNat,
      ?_, ksSelect_length _ _ _ _, by omega, ?_⟩
    · unfold knapsack
      rw [if_neg (by simp), if_neg (by omega), if_neg (by omega)]
    · intro other hol how
      exact h3 other hol (by omega)
  refine ⟨greedyChosen v (cap.toNat / w), d, hiter, hd, ?_⟩
  have hkg_len : (greedyChosen v (cap.toNat / w)).length = v.length :=
    greedyChosen_length v _
  have hcardg : (selIdx (greedyChosen v (cap.toNat / w))).card =
      min (cap.toNat / w) v.length := by
    rw [card_selIdx_greedyChosen, List.length_take,
      (greedyOrder_perm v).length_eq, List.length_range]
  have hwg : (selWeight (List.replicate v.length w)
      (greedyChosen v (cap.toNat / w)) : ℤ) ≤ cap := by
    rw [selWeight_uniform v.length w _ hkg_len, hcardg]
    have h1 : min (cap.toNat / w) v.length * w ≤ cap.toNat :=
      le_trans (Nat.mul_le_mul_right w (min_le_left _ _))
        (Nat.div_mul_le_self cap.toNat w)
    omega
  have hg_le_d : selValue v (greedyChosen v (cap.toNat / w)) ≤ selValue v d :=
    hdopt _ hkg_len hwg
  have hcardd : (selIdx d).card ≤ cap.toNat / w := by
    have h1 : (selIdx d).card * w ≤ cap.toNat := by
      have h2 := hdw
      rw [selWeight_uniform v.length w d hdlen] at h2
      omega
    exact (Nat.le_div_iff_mul_le hw).mpr h1
  have hd_le_g : selValue v d ≤ selValue v (greedyChosen v (cap.toNat / w)) := by
    rw [selValue_eq_multiset_sum v d, selValue_greedyChosen]
    refine submultiset_sum_le_take (greedyVals v) (greedyVals_sorted v)
      (greedyVals_nonneg v hnn) _ (sel_multiset_le v d hdlen) _ ?_
    rw [Multiset.card_map]
    exact hcardd
  exact le_antisymm hg_le_d hd_le_g

/-- Witness for `iterate_uniform_matches_dp` at values [1,2], weight 1,
capacity 1. -/
theorem iterate_uniform_matches_dp_witness :
    ∃ g d, iterate 1 [(1:ℚ), 2] (List.replicate [(1:ℚ), 2].length 1) = .ok g ∧
      knapsack [(1:ℚ), 2] (List.replicate [(1:ℚ), 2].length 1) 1 = .ok d ∧
      selValue [(1:ℚ), 2] g = selValue [(1:ℚ), 2] d :=
  iterate_uniform_matches_dp [(1:ℚ), 2] 1 1 (by decide) (by decide) (by decide)
    (by decide)

unseal Rat.add Rat.mul Rat.inv Rat.sub in
/-- Counterexample to C3 as stated: with the single negative value −1,
uniform weight 2 and capacity 2, the greedy fast path fills its quota and
selects the item (total value −1) while the DP solver selects nothing
(total value 0). -/
theorem iterate_uniform_negative_value_cex :
    iterate 2 [(-1:ℚ)] [2] = .ok [true] ∧
    knapsack [(-1:ℚ)] [2] 2 = .ok [false] ∧
    selValue [(-1:ℚ)] [true] ≠ selValue [(-1:ℚ)] [false] := by
  refine ⟨by decide, by decide, by decide⟩

/-! ## Claim C7 — empty/whitespace text height -/

unseal Rat.add Rat.mul Rat.inv Rat.sub in
/-- C7 (amended): for whitespace-only text the height function returns
`int((size.size / 72) * SCALE_FACTOR)` — the bare point size converted to
scaled inches — which is *not* the Scaled Dimension `SizeInfo.height`
derived from the Font Profile and the line-spacing multiplier: at each of
the four configured font sizes the two differ. -/
theorem getHeight_whitespace (cw : CharWidths) (text : List Char)
    (size : SizeInfo) (h : text.all pyIsSpace = true) :
    getHeight cw text size = ⌊size.size / 72 * SCALE_FACTOR⌋ ∧
    (size = FontSizeREGULAR ∨ size = FontSizeSUBTITLE ∨
        size = FontSizeTITLE ∨ size = FontSizeNAME →
      getHeight cw text size ≠ size.height * 1) := by
  have h1 : getHeight cw text size = ⌊size.size / 72 * SCALE_FACTOR⌋ := by
    rw [getHeight, if_pos h]
  refine ⟨h1, ?_⟩
  rintro (rfl | rfl | rfl | rfl) <;> rw [h1] <;> decide

/-- Witness for `getHeight_whitespace` on a single blank at the regular
size. -/
theorem getHeight_whitespace_witness :
    getHeight (fun _ => none) [' '] FontSizeREGULAR =
      ⌊FontSizeREGULAR.size / 72 * SCALE_FACTOR⌋ ∧
    getHeight (fun _ => none) [' '] FontSizeREGULAR ≠
      FontSizeREGULAR.height * 1 :=
  ⟨(getHeight_whitespace (fun _ => none) [' '] FontSizeREGULAR (by decide)).1,
    (getHeight_whitespace (fun _ => none) [' '] FontSizeREGULAR (by decide)).2
      (Or.inl rfl)⟩

unseal Rat.add Rat.mul Rat.inv Rat.sub in
/-- Counterexample to C7 as stated: for empty text at the regular size the
function returns 138 (= int(10/72·1000)), not one bare line height
183 (= FontSize.REGULAR.height). -/
theorem getHeight_whitespace_cex :
    getHeight (fun _ => none) [] FontSizeREGULAR = 138 ∧
    FontSizeREGULAR.height * 1 = 183 ∧ (138 : ℤ) ≠ 183 := by
  refine ⟨by decide, by decide, by decide⟩

/-! ## Claim C10 — zero-quantized width yields zero height -/

/-- C10 (confirmed): for non-whitespace text whose summed scaled advance
width quantizes to 0, the wrapped line count `ceil(0 / maxWidth)` is 0, so
the height is 0 — the text is measured as consuming no vertical space. -/
theorem getHeight_zero_width (cw : CharWidths) (text : List Char)
    (size : SizeInfo) (h1 : text.all pyIsSpace = false)
    (h2 : getWidth cw text size = 0) :
    getHeight cw text size = 0 := by
  rw [getHeight, if_neg (by simp [h1]), h2]
  norm_num

unseal Rat.add Rat.mul Rat.inv Rat.sub in
/-- Witness for `getHeight_zero_width`: the letter x in a font mapping every
glyph to advance width 0. -/
theorem getHeight_zero_width_witness :
    getHeight cwZero ['x'] FontSizeREGULAR = 0 :=
  getHeight_zero_width cwZero ['x'] FontSizeREGULAR (by decide) (by decide)

/-! ## Claim C1 — the missing PROJECT_POINT member -/

theorem pyFilterByAttr_projectPoint (x : ItemType) (xs : List ItemType) :
    pyFilterByAttr (x :: xs) "PROJECT_POINT" = .error .attributeError := by
  simp [pyFilterByAttr, itemTypeAttr, itemTypeMember]

theorem pyFilterByAttr_point (x : ItemType) (xs : List ItemType) :
    pyFilterByAttr (x :: xs) "POINT" = .ok ((x :: xs).filter (· == .POINT)) := by
  rfl

theorem prunePointsReal_nonempty_error (items : List ItemType) (cap : ℤ)
    (h : items ≠ []) : prunePointsReal items cap = .error .attributeError := by
  cases items with
  | nil => exact absurd rfl h
  | cons x xs =>
    rw [prunePointsReal]
    rw [pyFilterByAttr_point, pyFilterByAttr_projectPoint]
    rfl

theorem makeBatchTags_ok_ne_nil (doc : MDoc) (items : List ItemType)
    (h : makeBatchTags doc = .ok items) : items ≠ [] := by
  rw [makeBatchTags] at h
  split at h
  · simp only [Except.ok.injEq] at h
    subst h
    simp
  · split at h
    · exact absurd h (by simp)
    · simp only [Except.ok.injEq] at h
      subst h
      simp

theorem rankReal_isOk_false (req : ℤ) (doc : MDoc) :
    (rankReal req doc).isOk = false := by
  rw [rankReal]
  by_cases hh : req - skillReserve - courseReserve ≤ 0
  · rw [if_pos hh]
    rfl
  · rw [if_neg hh]
    rcases hmb : makeBatchTags doc with e | items
    · rfl
    · have hred : (do
          let items' ← Except.ok (ε := PyErr) items
          prunePointsReal items' (req - skillReserve - courseReserve)) =
            prunePointsReal items (req - skillReserve - courseReserve) := rfl
      rw [hred, prunePointsReal_nonempty_error items _
        (makeBatchTags_ok_ne_nil doc items hmb)]
      rfl

/-- C1 (confirmed): the partition phase of prunePoints evaluates the missing
enum member `ItemType.PROJECT_POINT` once per catalog item, so for every
non-empty catalog it raises AttributeError before the convergence loop and
before any knapsack call; the catalog built by makeBatch always ends with
the job-posting item, and makeBatch itself evaluates the same missing
member when a project has points, so the top-level rank pipeline never
returns normally on any input. -/
theorem prunePoints_attribute_error :
    (∀ (items : List ItemType) (cap : ℤ), items ≠ [] →
      prunePointsReal items cap = .error .attributeError) ∧
    (∀ (req : ℤ) (doc : MDoc), (rankReal req doc).isOk = false) :=
  ⟨prunePointsReal_nonempty_error, rankReal_isOk_false⟩

/-- Witness for `prunePoints_attribute_error` on the one-item catalog. -/
theorem prunePoints_attribute_error_witness :
    prunePointsReal [ItemType.JOB_POSTING] 5 = .error .attributeError ∧
    (rankReal 600 default).isOk = false :=
  ⟨prunePoints_attribute_error.1 [ItemType.JOB_POSTING] 5 (by simp),
    prunePoints_attribute_error.2 600 default⟩

/-! ## Claim C9 — the entry point's five-variable unpacking -/

/-- C9 (amended): rank never returns normally at all; and had it returned
its `filter` output, the five-name unpacking at resublox.py line 38 raises
ValueError exactly when the filtered document carries no projects entry
(four keys); when a projects entry survives, Python unpacks the five *keys*
into the five names without error, so the failure is not universal over
rank's possible return values. -/
theorem unpack_rank_result :
    (∀ (doc : MDoc) (sel : FilterSel), (pyFilter doc sel).projects = none →
      unpack5 (filteredKeys (pyFilter doc sel)) = .error .valueError) ∧
    (∀ (doc : MDoc) (sel : FilterSel), (pyFilter doc sel).projects.isSome →
      unpack5 (filteredKeys (pyFilter doc sel)) =
        .ok ("contact", "skills", "experience", "education", "projects")) ∧
    (∀ (req : ℤ) (doc : MDoc), (rankReal req doc).isOk = false) := by
  refine ⟨?_, ?_, rankReal_isOk_false⟩
  · intro doc sel h
    rw [filteredKeys, h]
    rfl
  · intro doc sel h
    rw [filteredKeys, Option.isSome_iff_exists.mp h |>.choose_spec]
    rfl

/-- Witness for `unpack_rank_result`: a document whose filtered copy has no
projects entry. -/
theorem unpack_rank_result_witness :
    unpack5 (filteredKeys (pyFilter default
      ⟨[], [], [], [], [], ∅, ∅, ∅⟩)) = .error .valueError ∧
    (rankReal 0 default).isOk = false :=
  ⟨unpack_rank_result.1 default ⟨[], [], [], [], [], ∅, ∅, ∅⟩ rfl,
    unpack_rank_result.2.2 0 default⟩

/-- Counterexample to C9 as stated: when the projects section survives the
filter, the returned dictionary has exactly five keys and the unpacking
succeeds — binding the five names to the key strings — instead of failing. -/
theorem unpack_five_keys_cex :
    (pyFilter w8Doc w8Sel).projects.isSome = true ∧
    unpack5 (filteredKeys (pyFilter w8Doc w8Sel)) =
      .ok ("contact", "skills", "experience", "education", "projects") := by
  refine ⟨by decide, by decide⟩

/-! ## Claim C5 — capacity collapse -/

theorem filter_replicate_false (n : ℕ) (p : ℕ → Bool) :
    (List.range n).filter
      (fun i => (List.replicate n false).getD i false && p i) = [] := by
  rw [List.filter_eq_nil_iff]
  intro i _
  rw [getD_replicate_self]
  simp

/-- C5 (amended): whenever an iteration takes the capacity-collapse branch,
the loop commits a state whose chosen point sets are empty; the returned
consumed space and active sets are those of the *previously committed*
iteration — the job/section/project header overhead of the accounted sets —
and they are zero and empty exactly when no earlier iteration had committed
active groups (so a first-iteration collapse returns the empty result the
claim describes, but a later collapse does not). -/
theorem collapse_commits_previous (env : OverheadEnv) (pts : List PPoint)
    (s s' : PPState) (h : stepFn env pts s = .ok (.inr s'))
    (hcol : s'.collapsed = true) :
    (finishPP env pts s').expKeepers = [] ∧
    (finishPP env pts s').projKeepers = [] ∧
    (finishPP env pts s').accJobs = s.accJobs ∧
    (finishPP env pts s').accSecs = s.accSecs ∧
    (finishPP env pts s').accProjs = s.accProjs ∧
    (finishPP env pts s').usedSpace =
      (∑ j ∈ s.accJobs, env.jobOH j) +
        (∑ k ∈ s.accSecs, env.secOH k.1 k.2 (isFirstFlag s.accSecs k)) +
        (if env.hasProjects then ∑ p ∈ s.accProjs, env.projOH p else 0) ∧
    (s.accJobs = ∅ → s.accSecs = ∅ → s.accProjs = ∅ →
      (finishPP env pts s').usedSpace = 0) := by
  rw [stepFn] at h
  rcases hit : iterate s.capacity (pts.map (·.value)) s.weights with e | raw
  · rw [hit] at h
    exact absurd h (by simp)
  · rw [hit] at h
    simp only [] at h
    split at h
    · simp only [Except.ok.injEq, Sum.inr.injEq] at h
      subst h
      simp [stepBase] at hcol
    · split at h
      · split at h
        · simp only [Except.ok.injEq, Sum.inr.injEq] at h
          subst h
          refine ⟨?_, ?_, ?_, ?_, ?_, ?_, ?_⟩
          · simp [finishPP, stepBase, filter_replicate_false]
          · simp [finishPP, stepBase, filter_replicate_false]
          · simp [finishPP, stepBase]
          · simp [finishPP, stepBase]
          · simp [finishPP, stepBase]
          · simp [finishPP, stepBase, filter_replicate_false]
          · intro h1 h2 h3
            simp [finishPP, stepBase, filter_replicate_false, h1, h2, h3]
        · split at h
          · simp only [Except.ok.injEq, Sum.inr.injEq] at h
            subst h
            simp [stepCommit, stepBase] at hcol
          · exact absurd h (by simp)
      · split at h
        · simp only [Except.ok.injEq, Sum.inr.injEq] at h
          subst h
          simp [stepCommit, stepBase] at hcol
        · exact absurd h (by simp)

unseal Rat.add Rat.mul Rat.inv Rat.sub in
/-- Witness for `collapse_commits_previous`: a first-iteration collapse
(job overhead 1000 against capacity 30) commits the empty result. -/
theorem collapse_commits_previous_witness :
    (finishPP w5Env w5Pts w5Col).expKeepers = [] ∧
    (finishPP w5Env w5Pts w5Col).projKeepers = [] ∧
    (finishPP w5Env w5Pts w5Col).accJobs = w5S0.accJobs ∧
    (finishPP w5Env w5Pts w5Col).accSecs = w5S0.accSecs ∧
    (finishPP w5Env w5Pts w5Col).accProjs = w5S0.accProjs ∧
    (finishPP w5Env w5Pts w5Col).usedSpace =
      (∑ j ∈ w5S0.accJobs, w5Env.jobOH j) +
        (∑ k ∈ w5S0.accSecs, w5Env.secOH k.1 k.2 (isFirstFlag w5S0.accSecs k)) +
        (if w5Env.hasProjects then ∑ p ∈ w5S0.accProjs, w5Env.projOH p
          else 0) ∧
    (w5S0.accJobs = ∅ → w5S0.accSecs = ∅ → w5S0.accProjs = ∅ →
      (finishPP w5Env w5Pts w5Col).usedSpace = 0) :=
  collapse_commits_previous w5Env w5Pts w5S0 w5Col (by decide) (by decide)

unseal Rat.add Rat.mul Rat.inv Rat.sub in
/-- Counterexample to C5 as stated: on `c5Pts` with capacity 30, iteration 1
commits section (0,0) (overhead 3); iteration 2 selects section (1,0)
instead, whose overhead 100 collapses the capacity to −70 ≤ 0.  The
committed result has empty chosen sets but reports consumed space 3 and the
non-empty active sets of the previous iteration, not zero and empty sets. -/
theorem capacity_collapse_cex :
    prunePointsLoop c5Env c5Pts 30 =
      .ok ⟨[], [], 3, {0}, {(0, 0)}, ∅, true, ∅, ∅⟩ ∧
    (3 : ℤ) ≠ 0 ∧ ({0} : Finset ℕ) ≠ ∅ := by
  refine ⟨by decide, by decide, by decide⟩

/-! ## Claim C6 — the blacklist ratchet -/

theorem greedyChosen_getD_true (v : List ℚ) (k i : ℕ)
    (h : (greedyChosen v k).getD i false = true) :
    i < v.length ∧ i ∈ (greedyOrder v).take k := by
  by_cases hi : i < v.length
  · rw [greedyChosen, getD_map_range _ _ _ _ hi] at h
    exact ⟨hi, of_decide_eq_true h⟩
  · rw [greedyChosen, List.getD_eq_getElem?_getD, List.getElem?_eq_none
      (by simpa using hi)] at h
    exact absurd h (by simp)

/-- Any item `iterate` reports as chosen has weight at most the capacity. -/
theorem iterate_chosen_weight_le (cap : ℤ) (v : List ℚ) (wt : List ℕ)
    (ch : List Bool) (h : iterate cap v wt = .ok ch) (i : ℕ)
    (hch : ch.getD i false = true) : (wt.getD i 0 : ℤ) ≤ cap := by
  rw [iterate] at h
  split at h
  · simp only [Except.ok.injEq] at h
    subst h
    rw [getD_replicate_self] at hch
    split at hch <;> simp at hch
  · next hcap =>
    have hcap' : 0 < cap := by omega
    have hcapn : (cap.toNat : ℤ) = cap := Int.toNat_of_nonneg (le_of_lt hcap')
    split at h
    · next hall =>
      split at h
      · exact absurd h (by simp)
      · next hne =>
        split at h
        · exact absurd h (by simp)
        · next hz =>
          simp only [Except.ok.injEq] at h
          subst h
          obtain ⟨hi, hmem⟩ := greedyChosen_getD_true v _ i hch
          have hk : 0 < cap.toNat / wt.headD 0 := by
            rcases Nat.eq_zero_or_pos (cap.toNat / wt.headD 0) with h0 | h0
            · rw [h0] at hmem
              simp at hmem
            · exact h0
          have hw0 : 0 < wt.headD 0 := Nat.pos_of_ne_zero hz
          have hle : wt.headD 0 ≤ cap.toNat := by
            by_contra hgt
            rw [Nat.div_eq_of_lt (by omega)] at hk
            omega
          rcases Nat.lt_or_ge i wt.length with hiw | hiw
          · have hmemw : wt.getD i 0 ∈ wt := by
              rw [List.getD_eq_getElem wt 0 hiw]
              exact List.getElem_mem hiw
            have heq : wt.getD i 0 = wt.headD 0 := by
              have := List.all_eq_true.mp hall _ hmemw
              exact of_decide_eq_true this
            omega
          · rw [List.getD_eq_getElem?_getD, List.getElem?_eq_none
              (by simpa using hiw)]
            simp
            omega
    · rw [knapsack] at h
      split at h
      · exact absurd h (by simp)
      · split at h
        · exact absurd h (by simp)
        · split at h
          · exact absurd h (by simp)
          · simp only [Except.ok.injEq] at h
            subst h
            have := ksSelect_chosen_weight_le v wt v.length cap.toNat i hch
            omega

/-- One step of the loop keeps a sentinel weight in place and, while the
working capacity is below the sentinel, never reports the item chosen. -/
theorem stepFn_blacklist (env : OverheadEnv) (pts : List PPoint) (s : PPState)
    (out : PPState ⊕ PPState) (h : stepFn env pts s = .ok out) (i : ℕ)
    (hlen : s.weights.length = pts.length)
    (hBL : s.weights.getD i 0 = BLACKLIST_WEIGHT) :
    (out.elim id id).weights.length = pts.length ∧
    (out.elim id id).weights.getD i 0 = BLACKLIST_WEIGHT ∧
    (s.capacity < (BLACKLIST_WEIGHT : ℤ) →
      (out.elim id id).chosen.getD i false = false) := by
  have hi : i < pts.length := by
    by_contra hge
    rw [List.getD_eq_getElem?_getD, List.getElem?_eq_none
      (by rw [hlen]; omega)] at hBL
    simp [BLACKLIST_WEIGHT] at hBL
  rw [stepFn] at h
  rcases hit : iterate s.capacity (pts.map (·.value)) s.weights with e | raw
  · rw [hit] at h
    exact absurd h (by simp)
  · rw [hit] at h
    simp only [] at h
    have hW : (newWeights pts raw s.weights).getD i 0 = BLACKLIST_WEIGHT := by
      rw [newWeights, getD_map_range _ _ _ _ hi]
      split
      · rfl
      · exact hBL
    have hWlen : (newWeights pts raw s.weights).length = pts.length := by
      simp [newWeights]
    have hC : s.capacity < (BLACKLIST_WEIGHT : ℤ) →
        (newChosen pts raw).getD i false = false := by
      intro hcap
      rw [newChosen, getD_map_range _ _ _ _ hi]
      have hraw : raw.getD i false = false := by
        by_contra htr
        rw [Bool.not_eq_false] at htr
        have := iterate_chosen_weight_le _ _ _ _ hit i htr
        rw [hBL] at this
        omega
      rw [hraw]
      rfl
    split at h
    · simp only [Except.ok.injEq] at h
      subst h
      exact ⟨hWlen, hW, fun hc => hC hc⟩
    · split at h
      · split at h
        · simp only [Except.ok.injEq] at h
          subst h
          refine ⟨hWlen, hW, fun hc => ?_⟩
          simp only [Sum.elim_inr, id]
          rw [getD_replicate_self, if_pos hi]
        · split at h
          · simp only [Except.ok.injEq] at h
            subst h
            exact ⟨hWlen, hW, fun hc => hC hc⟩
          · simp only [Except.ok.injEq] at h
            subst h
            exact ⟨hWlen, hW, fun hc => hC hc⟩
      · split at h
        · simp only [Except.ok.injEq] at h
          subst h
          exact ⟨hWlen, hW, fun hc => hC hc⟩
        · simp only [Except.ok.injEq] at h
          subst h
          exact ⟨hWlen, hW, fun hc => hC hc⟩

/-- C6 (amended): once an item's weight has been set to the sentinel
`BLACKLIST_WEIGHT` — which is what the rejection of its group does to the
items *selected at that iteration* — its weight remains the sentinel at
every later iteration of the same run, and at every later iteration whose
working capacity is below the sentinel the solver does not select it.  (The
claim's stronger reading — that no item of a rejected *group* is ever
selected again and that the group is absent from the final active sets — is
false: only the selected items are blacklisted, and the group can re-qualify
through its remaining items; see the counterexample.) -/
theorem blacklist_never_reselected (env : OverheadEnv) (pts : List PPoint)
    (n : ℕ) (s : PPState) (i : ℕ)
    (hlen : s.weights.length = pts.length)
    (hBL : s.weights.getD i 0 = BLACKLIST_WEIGHT)
    (hcap0 : s.capacity < (BLACKLIST_WEIGHT : ℤ))
    (hcaps : ∀ t ∈ traceFrom env pts n s,
      t.capacity < (BLACKLIST_WEIGHT : ℤ)) :
    ∀ t ∈ traceFrom env pts n s,
      t.weights.getD i 0 = BLACKLIST_WEIGHT ∧
        t.chosen.getD i false = false := by
  induction n generalizing s with
  | zero =>
    intro t ht
    simp [traceFrom] at ht
  | succ n ih =>
    intro t ht
    rw [traceFrom] at ht hcaps
    rcases hst : stepFn env pts s with e | out
    · rw [hst] at ht
      simp at ht
    · rcases out with s' | s'
      · rw [hst] at ht hcaps
        have hstep := stepFn_blacklist env pts s _ hst i hlen hBL
        simp only [Sum.elim_inl, id] at hstep
        rcases List.mem_cons.mp ht with rfl | htl
        · exact ⟨hstep.2.1, hstep.2.2 hcap0⟩
        · exact ih s' hstep.1 hstep.2.1
            (hcaps s' (List.mem_cons_self s' _))
            (fun u hu => hcaps u (List.mem_cons_of_mem _ hu)) t htl
      · rw [hst] at ht
        have hstep := stepFn_blacklist env pts s _ hst i hlen hBL
        simp only [Sum.elim_inr, id] at hstep
        have : t = s' := List.mem_singleton.mp ht
        subst this
        exact ⟨hstep.2.1, hstep.2.2 hcap0⟩

unseal Rat.add Rat.mul Rat.inv Rat.sub in
/-- Witness for `blacklist_never_reselected`: one already-blacklisted point
at capacity 5; after one further iteration its weight is still the sentinel
and it is not chosen. -/
theorem blacklist_never_reselected_witness :
    ((traceFrom zeroEnv w6Pts 1 w6S).getD 0 default).weights.getD 0 0 =
      BLACKLIST_WEIGHT ∧
    ((traceFrom zeroEnv w6Pts 1 w6S).getD 0 default).chosen.getD 0 false =
      false :=
  blacklist_never_reselected zeroEnv w6Pts 1 w6S 0 (by decide) (by decide)
    (by decide) (by decide) ((traceFrom zeroEnv w6Pts 1 w6S).getD 0 default)
    (by decide)

set_option maxRecDepth 100000 in
unseal Rat.add Rat.mul Rat.inv Rat.sub in
/-- Counterexample to C6 as stated: on `c6Pts` with capacity 23, section
(0,0) is rejected at iteration 1 (only two of its points were selected, so
only those two are blacklisted — it enters `rejectedSecs`); at iteration 2
its three remaining points are all selected, the section re-qualifies, and
it is present in the final active sets, with its point of index 2 among the
returned keepers. -/
theorem minimum_group_ratchet_cex :
    prunePointsLoop c6Env c6Pts 23 =
      .ok ⟨[2, 3, 4, 5, 6, 7], [], 17, {0, 1}, {(0, 0), (1, 0)}, ∅,
        false, {(0, 0)}, ∅⟩ ∧
    (c6Pts.getD 2 default).group = Sum.inl (0, 0) := by
  refine ⟨by decide, by decide⟩

/-! ## Helper lemmas: sorted index selections are sublists -/

theorem map_getD_sublist_drop {α : Type} (xs : List α) (dflt : α) :
    ∀ (is : List ℕ) (k : ℕ), is.Pairwise (· < ·) →
      (∀ i ∈ is, k ≤ i ∧ i < xs.length) →
      (is.map (fun i => xs.getD i dflt)).Sublist (xs.drop k) := by
  intro is
  induction is with
  | nil => intro k _ _; simp
  | cons i is ih =>
    intro k hp hb
    obtain ⟨hki, hilen⟩ := hb i (List.mem_cons_self i is)
    have hgd : xs.getD i dflt = xs[i] := List.getD_eq_getElem xs dflt hilen
    have htail : (is.map (fun j => xs.getD j dflt)).Sublist (xs.drop (i + 1)) := by
      refine ih (i + 1) hp.of_cons (fun j hj => ?_)
      have hij : i < j := (List.pairwise_cons.mp hp).1 j hj
      exact ⟨hij, (hb j (List.mem_cons_of_mem i hj)).2⟩
    have hcons : (xs[i] :: (is.map (fun j => xs.getD j dflt))).Sublist
        (xs[i] :: xs.drop (i + 1)) := htail.cons₂ _
    have hdropi : xs[i] :: xs.drop (i + 1) = xs.drop i :=
      (List.drop_eq_getElem_cons hilen).symm
    have hmono : (xs.drop i).Sublist (xs.drop k) := by
      have : xs.drop i = (xs.drop k).drop (i - k) := by
        rw [List.drop_drop]
        congr 1
        omega
      rw [this]
      exact List.drop_sublist _ _
    rw [List.map_cons, hgd]
    exact (hdropi ▸ hcons).trans hmono

theorem map_getD_sublist {α : Type} (xs : List α) (dflt : α) (is : List ℕ)
    (hp : is.Pairwise (· < ·)) (hb : ∀ i ∈ is, i < xs.length) :
    (is.map (fun i => xs.getD i dflt)).Sublist xs := by
  have := map_getD_sublist_drop xs dflt is 0 hp
    (fun i hi => ⟨Nat.zero_le i, hb i hi⟩)
  simpa using this

theorem forall₂_map_same {α β γ : Type} (R : β → γ → Prop) (f : α → β)
    (g : α → γ) (l : List α) (h : ∀ a ∈ l, R (f a) (g a)) :
    List.Forall₂ R (l.map f) (l.map g) := by
  induction l with
  | nil => simp
  | cons a l ih =>
    simp only [List.map_cons]
    exact List.Forall₂.cons (h a (List.mem_cons_self a l))
      (ih (fun b hb => h b (List.mem_cons_of_mem a hb)))

/-- Mapping a strictly-sorted, in-bounds index list through a builder that is
pointwise related to the source entries yields a `SublistForall₂`. -/
theorem sorted_select_sublistForall₂ {α β : Type} (R : β → α → Prop)
    (xs : List α) (dflt : α) (is : List ℕ) (f : ℕ → β)
    (hp : is.Pairwise (· < ·)) (hb : ∀ i ∈ is, i < xs.length)
    (hR : ∀ i ∈ is, R (f i) (xs.getD i dflt)) :
    List.SublistForall₂ R (is.map f) xs := by
  rw [List.sublistForall₂_iff]
  exact ⟨is.map (fun i => xs.getD i dflt),
    forall₂_map_same R f _ is hR, map_getD_sublist xs dflt is hp hb⟩

theorem pySorted_pairwise_lt (l : List ℕ) (h : l.Nodup) :
    (pySorted l).Pairwise (· < ·) := by
  have hs : (pySorted l).Pairwise (· ≤ ·) := List.sorted_insertionSort _ l
  have hn : (pySorted l).Nodup :=
    (List.perm_insertionSort _ l).nodup_iff.mpr h
  exact (hs.and hn).imp (fun hab => lt_of_le_of_ne hab.1 hab.2)

theorem mem_pySorted (l : List ℕ) (i : ℕ) : i ∈ pySorted l ↔ i ∈ l :=
  (List.perm_insertionSort _ l).mem_iff

theorem finset_sort_pairwise_lt (s : Finset ℕ) :
    (s.sort (· ≤ ·)).Pairwise (· < ·) := s.sort_sorted_lt

/-! ## Claim C8 — the Selection-to-Document Filter preserves order -/

theorem filtered_points_sublist (xs : List String) (pl : List (ℕ × ℕ × ℕ))
    (j sidx : ℕ) (hN : pl.Nodup)
    (hB : ∀ m ∈ pl, m.1 = j → m.2.1 = sidx → m.2.2 < xs.length) :
    ((pySorted ((pl.filter (fun m => m.1 = j ∧ m.2.1 = sidx)).map
      (fun m => m.2.2))).map (fun p => xs.getD p "")).Sublist xs := by
  have hfil : ∀ m ∈ pl.filter (fun m => m.1 = j ∧ m.2.1 = sidx),
      m.1 = j ∧ m.2.1 = sidx ∧ m ∈ pl := by
    intro m hm
    obtain ⟨h1, h2⟩ := List.mem_filter.mp hm
    have := of_decide_eq_true h2
    exact ⟨this.1, this.2, h1⟩
  have hnodup : ((pl.filter (fun m => m.1 = j ∧ m.2.1 = sidx)).map
      (fun m => m.2.2)).Nodup := by
    refine (hN.filter _).map_on ?_
    intro x hx y hy hxy
    obtain ⟨hx1, hx2, _⟩ := hfil x hx
    obtain ⟨hy1, hy2, _⟩ := hfil y hy
    obtain ⟨xa, xb, xc⟩ := x
    obtain ⟨ya, yb, yc⟩ := y
    simp_all
  refine map_getD_sublist xs "" _ (pySorted_pairwise_lt _ hnodup) ?_
  intro p hp
  obtain ⟨m, hm, rfl⟩ := List.mem_map.mp ((mem_pySorted _ _).mp hp)
  obtain ⟨h1, h2, h3⟩ := hfil m hm
  exact hB m h3 h1 h2

theorem filtered_projpoints_sublist (xs : List String) (pl : List (ℕ × ℕ))
    (pj : ℕ) (hN : pl.Nodup)
    (hB : ∀ m ∈ pl, m.1 = pj → m.2 < xs.length) :
    ((pySorted ((pl.filter (fun m => m.1 = pj)).map
      (fun m => m.2))).map (fun p => xs.getD p "")).Sublist xs := by
  have hfil : ∀ m ∈ pl.filter (fun m => m.1 = pj), m.1 = pj ∧ m ∈ pl := by
    intro m hm
    obtain ⟨h1, h2⟩ := List.mem_filter.mp hm
    exact ⟨of_decide_eq_true h2, h1⟩
  have hnodup : ((pl.filter (fun m => m.1 = pj)).map (fun m => m.2)).Nodup := by
    refine (hN.filter _).map_on ?_
    intro x hx y hy hxy
    obtain ⟨hx1, _⟩ := hfil x hx
    obtain ⟨hy1, _⟩ := hfil y hy
    obtain ⟨xa, xb⟩ := x
    obtain ⟨ya, yb⟩ := y
    simp_all
  refine map_getD_sublist xs "" _ (pySorted_pairwise_lt _ hnodup) ?_
  intro p hp
  obtain ⟨m, hm, rfl⟩ := List.mem_map.mp ((mem_pySorted _ _).mp hp)
  obtain ⟨h1, h2⟩ := hfil m hm
  exact hB m h2 h1

theorem filtered_seckw_sublist (xs : List String)
    (kl : List ((ℕ × ℕ × ℕ) ⊕ (ℕ × ℕ))) (j sidx : ℕ) (hN : kl.Nodup)
    (hB : ∀ m ∈ kl, ∀ k, m = Sum.inl (j, sidx, k) → k < xs.length) :
    ((pySorted (kl.filterMap (fun m =>
      match m with
      | Sum.inl (jj, ss, kk) => if jj = j ∧ ss = sidx then some kk else none
      | Sum.inr _ => none))).map (fun k => xs.getD k "")).Sublist xs := by
  have hshape : ∀ (a : (ℕ × ℕ × ℕ) ⊕ (ℕ × ℕ)) (b : ℕ),
      b ∈ (match a with
        | Sum.inl (jj, ss, kk) => if jj = j ∧ ss = sidx then some kk else none
        | Sum.inr _ => none) → a = Sum.inl (j, sidx, b) := by
    rintro (⟨jj, ss, kk⟩ | q) b hb
    · dsimp at hb
      split at hb
      · next hc =>
        simp only [Option.mem_def, Option.some.injEq] at hb
        subst hb
        rw [hc.1, hc.2]
      · simp at hb
    · simp at hb
  have hnodup : (kl.filterMap (fun m =>
      match m with
      | Sum.inl (jj, ss, kk) => if jj = j ∧ ss = sidx then some kk else none
      | Sum.inr _ => none)).Nodup := by
    refine List.Nodup.filterMap ?_ hN
    intro a a' b hb hb'
    rw [hshape a b hb, hshape a' b hb']
  refine map_getD_sublist xs "" _ (pySorted_pairwise_lt _ hnodup) ?_
  intro k hk
  obtain ⟨m, hm, hmk⟩ := List.mem_filterMap.mp ((mem_pySorted _ _).mp hk)
  exact hB m hm k (hshape m k hmk)

theorem filtered_projkw_sublist (xs : List String)
    (kl : List ((ℕ × ℕ × ℕ) ⊕ (ℕ × ℕ))) (pj : ℕ) (hN : kl.Nodup)
    (hB : ∀ m ∈ kl, ∀ k, m = Sum.inr (pj, k) → k < xs.length) :
    ((pySorted (kl.filterMap (fun m =>
      match m with
      | Sum.inl _ => none
      | Sum.inr (pp, kk) => if pp = pj then some kk else none))).map
        (fun k => xs.getD k "")).Sublist xs := by
  have hshape : ∀ (a : (ℕ × ℕ × ℕ) ⊕ (ℕ × ℕ)) (b : ℕ),
      b ∈ (match a with
        | Sum.inl _ => none
        | Sum.inr (pp, kk) => if pp = pj then some kk else none) →
        a = Sum.inr (pj, b) := by
    rintro (q | ⟨pp, kk⟩) b hb
    · simp at hb
    · dsimp at hb
      split at hb
      · next hc =>
        simp only [Option.mem_def, Option.some.injEq] at hb
        subst hb
        rw [hc]
      · simp at hb
  have hnodup : (kl.filterMap (fun m =>
      match m with
      | Sum.inl _ => none
      | Sum.inr (pp, kk) => if pp = pj then some kk else none)).Nodup := by
    refine List.Nodup.filterMap ?_ hN
    intro a a' b hb hb'
    rw [hshape a b hb, hshape a' b hb']
  refine map_getD_sublist xs "" _ (pySorted_pairwise_lt _ hnodup) ?_
  intro k hk
  obtain ⟨m, hm, hmk⟩ := List.mem_filterMap.mp ((mem_pySorted _ _).mp hk)
  exact hB m hm k (hshape m k hmk)

/-- C8 (confirmed): for selections whose metadata indices are duplicate-free
and in range, the filter's output preserves the source order everywhere:
the retained skills and courses are order-preserving sublists of the
originals, every retained job appears in source order carrying its header
fields with its sections, points and keywords as order-preserving sublists,
and likewise for retained projects. -/
theorem filter_preserves_order (doc : MDoc) (sel : FilterSel)
    (hskN : sel.skillsSel.Nodup)
    (hskB : ∀ i ∈ sel.skillsSel, i < doc.skills.length)
    (hcoN : sel.coursesSel.Nodup)
    (hcoB : ∀ i ∈ sel.coursesSel, i < doc.courses.length)
    (hjB : ∀ j ∈ sel.jobsSel, j < doc.jobs.length)
    (hsB : ∀ q ∈ sel.secsSel,
      q.2 < (doc.jobs.getD q.1 default).sections.length)
    (hpN : sel.expPointsSel.Nodup)
    (hpB : ∀ m ∈ sel.expPointsSel,
      m.2.2 <
        ((doc.jobs.getD m.1 default).sections.getD m.2.1 default).points.length)
    (hkN : sel.keywordsSel.Nodup)
    (hkSB : ∀ m ∈ sel.keywordsSel, ∀ j s k, m = Sum.inl (j, s, k) →
      k < ((doc.jobs.getD j default).sections.getD s default).keywords.length)
    (hkPB : ∀ m ∈ sel.keywordsSel, ∀ p k, m = Sum.inr (p, k) →
      ∀ ps, doc.projects = some ps → k < (ps.getD p default).keywords.length)
    (hppN : sel.projPointsSel.Nodup)
    (hppB : ∀ m ∈ sel.projPointsSel, ∀ ps, doc.projects = some ps →
      m.2 < (ps.getD m.1 default).points.length)
    (hpjB : ∀ p ∈ sel.projsSel, ∀ ps, doc.projects = some ps →
      p < ps.length) :
    (pyFilter doc sel).skills.Sublist doc.skills ∧
    (pyFilter doc sel).courses.Sublist doc.courses ∧
    List.SublistForall₂ JobOf (pyFilter doc sel).jobs doc.jobs ∧
    (∀ ps fs, doc.projects = some ps →
      (pyFilter doc sel).projects = some fs →
        List.SublistForall₂ ProjOf fs ps) := by
  refine ⟨?_, ?_, ?_, ?_⟩
  · exact map_getD_sublist doc.skills "" _ (pySorted_pairwise_lt _ hskN)
      (fun i hi => hskB i ((mem_pySorted _ _).mp hi))
  · exact map_getD_sublist doc.courses "" _ (pySorted_pairwise_lt _ hcoN)
      (fun i hi => hcoB i ((mem_pySorted _ _).mp hi))
  · refine sorted_select_sublistForall₂ JobOf doc.jobs default _
      (filterJob doc sel) (finset_sort_pairwise_lt _)
      (fun j hj => hjB j ((Finset.mem_sort _).mp hj)) ?_
    intro j hj
    refine ⟨rfl, rfl, rfl, rfl, rfl, ?_⟩
    refine sorted_select_sublistForall₂ SecOf
      (doc.jobs.getD j default).sections default _ _
      (finset_sort_pairwise_lt _) ?_ ?_
    · intro sidx hsidx
      obtain ⟨q, hq, rfl⟩ :=
        Finset.mem_image.mp ((Finset.mem_sort _).mp hsidx)
      obtain ⟨hqmem, hqj⟩ := Finset.mem_filter.mp hq
      have := hsB q hqmem
      rwa [hqj] at this
    · intro sidx hsidx
      refine ⟨rfl, ?_, ?_⟩
      · refine filtered_points_sublist _ sel.expPointsSel j sidx hpN ?_
        intro m hm h1 h2
        rw [← h1, ← h2]
        exact hpB m hm
      · exact filtered_seckw_sublist _ sel.keywordsSel j sidx hkN
          (fun m hm k hk => hkSB m hm j sidx k hk)
  · intro ps fs hps hfs
    have hred : (pyFilter doc sel).projects =
        (if sel.projsSel = ∅ then none
          else some ((sel.projsSel.sort (· ≤ ·)).map (filterProject ps sel))) := by
      simp only [pyFilter, hps]
    rw [hred] at hfs
    by_cases hpe : sel.projsSel = ∅
    · rw [if_pos hpe] at hfs
      exact absurd hfs (by simp)
    · rw [if_neg hpe] at hfs
      simp only [Option.some.injEq] at hfs
      subst hfs
      refine sorted_select_sublistForall₂ ProjOf ps default _
        (filterProject ps sel) (finset_sort_pairwise_lt _)
        (fun p hp => hpjB p ((Finset.mem_sort _).mp hp) ps hps) ?_
      intro p hp
      refine ⟨rfl, ?_, ?_⟩
      · refine filtered_projpoints_sublist _ sel.projPointsSel p hppN ?_
        intro m hm h1
        rw [← h1]
        exact hppB m hm ps hps
      · exact filtered_projkw_sublist _ sel.keywordsSel p hkN
          (fun m hm k hk => hkPB m hm p k hk ps hps)

/-- Witness for `filter_preserves_order` on the two-skill one-job
one-project document. -/
theorem filter_preserves_order_witness :
    (pyFilter w8Doc w8Sel).skills.Sublist w8Doc.skills ∧
    (pyFilter w8Doc w8Sel).courses.Sublist w8Doc.courses ∧
    List.SublistForall₂ JobOf (pyFilter w8Doc w8Sel).jobs w8Doc.jobs ∧
    (∀ ps fs, w8Doc.projects = some ps →
      (pyFilter w8Doc w8Sel).projects = some fs →
        List.SublistForall₂ ProjOf fs ps) :=
  filter_preserves_order w8Doc w8Sel (by decide) (by decide) (by decide)
    (by decide) (by decide) (by decide) (by decide) (by decide) (by decide)
    (by
      intro m hm j s k hk
      rcases List.mem_cons.mp hm with rfl | hm'
      · simp only [Sum.inl.injEq, Prod.mk.injEq] at hk
        obtain ⟨rfl, rfl, rfl⟩ := hk
        decide
      · rcases List.mem_cons.mp hm' with rfl | hm''
        · exact absurd hk (by simp)
        · simp at hm'')
    (by
      intro m hm p k hk ps hps
      rcases List.mem_cons.mp hm with rfl | hm'
      · exact absurd hk (by simp)
      · rcases List.mem_cons.mp hm' with rfl | hm''
        · simp only [Sum.inr.injEq, Prod.mk.injEq] at hk
          obtain ⟨rfl, rfl⟩ := hk
          have hval : ps = (w8Doc.projects).getD [] := by rw [hps]; rfl
          subst hval
          decide
        · simp at hm'')
    (by decide)
    (by
      intro m hm ps hps
      rcases List.mem_cons.mp hm with rfl | hm'
      · have hval : ps = (w8Doc.projects).getD [] := by rw [hps]; rfl
        subst hval
        decide
      · simp at hm')
    (by
      intro p hp ps hps
      have hval : ps = (w8Doc.projects).getD [] := by rw [hps]; rfl
      subst hval
      have hp0 : p ∈ ({0} : Finset ℕ) := hp
      simp only [Finset.mem_singleton] at hp0
      subst hp0
      decide)
